import Mathlib

/-! # huobao-novel: generation orchestration pipeline

A shallow embedding of `src/api/llm.js` and `src/api/generator.js`.

* JavaScript strings are modelled as lists of characters (`Text`).  Every
  character the embedded code inspects (whitespace, digits, the backtick, the
  chapter markers, brackets, separators) lies in the Basic Multilingual Plane,
  so scanning code points and scanning UTF-16 code units agree.
* A falsy string (`''`, `undefined`, `null`) is the empty text.
* Regular expressions are embedded as the matchers they denote: the search
  order of the backtracking engine (greedy and lazy quantifiers, leftmost
  match, resumption after the previous match for the `g` flag) is followed
  step by step.
* Asynchronous calls are embedded by explicit state passing: the completion
  client is a function of the call index and the prompt, and the functions
  whose requests matter return the log of the requests (and delays) they
  issued next to their outcome.
* A thrown exception is an error value of the result.
-/

namespace HuobaoNovel

/-! ## Text primitives -/

/-- A JavaScript string. -/
abbrev Text := List Char

/-- The characters matched by `\s`, which are also the ones removed by
`String.prototype.trim` (WhiteSpace and LineTerminator). -/
def isWhitespace (c : Char) : Bool :=
  let n := c.toNat
  n == 9 || n == 10 || n == 11 || n == 12 || n == 13 || n == 32 || n == 160 ||
  n == 5760 || (8192 ≤ n && n ≤ 8202) || n == 8232 || n == 8233 || n == 8239 ||
  n == 8287 || n == 12288 || n == 65279

/-- The characters that `.` does not match (no `s` flag): the line terminators. -/
def isLineTerminator (c : Char) : Bool :=
  let n := c.toNat
  n == 10 || n == 13 || n == 8232 || n == 8233

/-- The characters matched by `\d`. -/
def isDigit (c : Char) : Bool :=
  48 ≤ c.toNat && c.toNat ≤ 57

/-- Embedding of `String.prototype.trim`. -/
def trim (s : Text) : Text :=
  (s.dropWhile isWhitespace).rdropWhile isWhitespace

/-- The backtick character. -/
def backtick : Char := Char.ofNat 96

/-- The fence delimiter: three backticks. -/
def fence : Text := [backtick, backtick, backtick]

/-! ## `cleanResponse` (llm.js) -/

/-- Index of the first occurrence of the fence delimiter in `s`, if any. -/
def fenceIndex : Text → Option Nat
  | [] => none
  | c :: cs =>
    if fence.isPrefixOf (c :: cs) then some 0
    else (fenceIndex cs).map (· + 1)

/-- The global replacement of the fenced-block pattern (three backticks, the
shortest run of arbitrary characters, three backticks) by the empty string.
`skip` counts the characters of the current match that are still to be
consumed.  At a position where the pattern matches (an opening fence with a
closing fence at offset `j` behind it) the `3 + j + 3` characters of the match
are dropped and the search resumes right after them; elsewhere the character
is kept and the search moves one position on. -/
def removeFencesFrom : Nat → Text → Text
  | _, [] => []
  | skip + 1, _ :: cs => removeFencesFrom skip cs
  | 0, c :: cs =>
    if fence.isPrefixOf (c :: cs) then
      match fenceIndex (cs.drop 2) with
      | some j => removeFencesFrom (2 + j + 3) cs
      | none => c :: removeFencesFrom 0 cs
    else c :: removeFencesFrom 0 cs

/-- First replacement of `cleanResponse`: fenced code blocks are removed. -/
def removeFences (s : Text) : Text := removeFencesFrom 0 s

/-- Second replacement of `cleanResponse`: every backtick is removed. -/
def removeBackticks (s : Text) : Text := s.filter (fun c => c != backtick)

/-- Embedding of `cleanResponse(text)`. -/
def cleanResponse (text : Text) : Text :=
  if text.isEmpty then []
  else trim (removeBackticks (removeFences text))

/-! ## Chunk size of `generateChapterBlueprint` (generator.js) -/

/-- The constant `tokensPerChapter`. -/
def tokensPerChapter : Nat := 350

/-- Embedding of `apiConfig.maxTokens || 8192`. -/
def effectiveMaxTokens (configured : Nat) : Nat :=
  if configured = 0 then 8192 else configured

/-- The value of `Math.floor((maxTokens * 0.7) / tokensPerChapter)` as a
function of `maxTokens`.  JavaScript computes it in double precision, which is
not modelled here: the function is a parameter of the embedding, and the
theorems hold for every choice of it. -/
abbrev FlooredQuotient := Nat → Nat

/-- The quotient in exact arithmetic, with the factor `0.7` taken as `7/10`.
The double-precision value can differ from it at multiples of 500; at
`maxTokens = 8192` both are `16`. -/
def exactQuotient : FlooredQuotient :=
  fun maxTokens => (maxTokens * 7) / (10 * tokensPerChapter)

/-- Embedding of `Math.max(5, Math.min(chunkSize, 25, numberOfChapters))`. -/
def clampChunkSize (raw numberOfChapters : Nat) : Nat :=
  max 5 (min (min raw 25) numberOfChapters)

/-- The chunk size computed by `generateChapterBlueprint` from the configured
`maxTokens` and the project's `numberOfChapters`. -/
def chunkSize (quotient : FlooredQuotient) (configuredMaxTokens numberOfChapters : Nat) : Nat :=
  clampChunkSize (quotient (effectiveMaxTokens configuredMaxTokens)) numberOfChapters

/-! ## Chapter markers and headings (generator.js) -/

/-- The character that opens a chapter marker. -/
def markerOpen : Char := '第'

/-- The character that closes a chapter marker. -/
def markerClose : Char := '章'

/-- The opening square bracket. -/
def bracketOpen : Char := '['

/-- The closing square bracket. -/
def bracketClose : Char := ']'

/-- The line feed. -/
def lineFeed : Char := Char.ofNat 10

/-- Decimal rendering of a number, as produced by a template literal. -/
def decimal (n : Nat) : Text := Nat.toDigits 10 n

/-- Embedding of `parseInt` on a run of decimal digits. -/
def parseInt (ds : Text) : Nat :=
  ds.foldl (fun acc c => 10 * acc + (c.toNat - 48)) 0

/-- The marker pattern (marker opener, `\s*`, `(\d+)`, `\s*`, marker
closer) anchored at the start of `s`: the captured digits and the text that
follows the match.  The character classes involved are pairwise disjoint, so
the greedy choice of every quantifier is the only one that can succeed. -/
def chapterMarker (s : Text) : Option (Text × Text) :=
  match s with
  | [] => none
  | c :: r =>
    if c = markerOpen then
      let r1 := r.dropWhile isWhitespace
      let ds := r1.takeWhile isDigit
      if ds.isEmpty then none
      else
        match (r1.dropWhile isDigit).dropWhile isWhitespace with
        | [] => none
        | c2 :: r2 => if c2 = markerClose then some (ds, r2) else none
    else none

/-- The separator class of the heading pattern in `parseChapterBlueprint`. -/
def isSeparator (c : Char) : Bool :=
  c == '｜' || c == '|' || c == '－' || c == '-' || c == '–' || c == '—'

/-- The lookahead `(?=\n|$)`. -/
def atLineEnd (s : Text) : Bool :=
  match s with
  | [] => true
  | c :: _ => c == lineFeed

/-- The tail `\]?(?=\n|$)` of the heading pattern at `s`: the number of
characters it consumes when it matches. -/
def titleEnd (s : Text) : Option Nat :=
  match s with
  | [] => some 0
  | c :: r =>
    if c = bracketClose then (if atLineEnd r then some 1 else none)
    else if c = lineFeed then some 0
    else none

/-- The lazy group `(.+?)` followed by `\]?(?=\n|$)`: the shortest non-empty
run of characters other than line terminators after which the tail matches.
Returns the captured text and the number of characters consumed. -/
def lazyTitle : Text → Option (Text × Nat)
  | [] => none
  | c :: cs =>
    if isLineTerminator c then none
    else
      match titleEnd cs with
      | some j => some ([c], 1 + j)
      | none =>
        match lazyTitle cs with
        | some (t, n) => some (c :: t, n + 1)
        | none => none

/-- The greedy optional `\[?` followed by the lazy title: the bracket is
consumed first, and given back when the rest does not match. -/
def bracketedTitle (s : Text) : Option (Text × Nat) :=
  match s with
  | [] => lazyTitle []
  | c :: r =>
    if c = bracketOpen then
      match lazyTitle r with
      | some (t, n) => some (t, n + 1)
      | none => lazyTitle (c :: r)
    else lazyTitle (c :: r)

/-- The greedy `\s*` in front of the title, with backtracking: the longest
run of whitespace is tried first, then shorter ones down to the empty run. -/
def wsThenTitle : Text → Option (Text × Nat)
  | [] => bracketedTitle []
  | c :: cs =>
    if isWhitespace c then
      match wsThenTitle cs with
      | some (t, n) => some (t, n + 1)
      | none => bracketedTitle (c :: cs)
    else bracketedTitle (c :: cs)

/-- One match of the heading pattern of `parseChapterBlueprint`. -/
structure HeadingMatch where
  /-- The capture `match[1]`. -/
  digits : Text
  /-- The capture `match[2]`. -/
  rawTitle : Text
  /-- The length of `match[0]`. -/
  length : Nat
  deriving DecidableEq

/-- The heading pattern anchored at the start of `s`. -/
def headingAt (s : Text) : Option HeadingMatch :=
  match chapterMarker s with
  | none => none
  | some (ds, r) =>
    match r.dropWhile isWhitespace with
    | [] => none
    | c :: r2 =>
      if isSeparator c then
        match wsThenTitle r2 with
        | some (t, n) => some ⟨ds, t, (s.length - r2.length) + n⟩
        | none => none
      else none

/-- The `pattern.exec` loop (flag `g`): all matches of the heading pattern
from left to right with their start index.  `skip` counts the characters of
the previous match that are still to be passed over (`lastIndex`). -/
def headingMatchesFrom : Nat → Nat → Text → List (Nat × HeadingMatch)
  | _, _, [] => []
  | skip + 1, pos, _ :: cs => headingMatchesFrom skip (pos + 1) cs
  | 0, pos, c :: cs =>
    match headingAt (c :: cs) with
    | some m => (pos, m) :: headingMatchesFrom (m.length - 1) (pos + 1) cs
    | none => headingMatchesFrom 0 (pos + 1) cs

/-- All heading matches of a blueprint text. -/
def headingMatches (blueprint : Text) : List (Nat × HeadingMatch) :=
  headingMatchesFrom 0 0 blueprint

/-- Embedding of `.replace(/^\[|\]$/g, '')`: an opening bracket at the very
start is removed, then a closing bracket at the very end of what follows. -/
def stripBrackets (s : Text) : Text :=
  let s1 : Text :=
    match s with
    | [] => []
    | c :: r => if c = bracketOpen then r else c :: r
  if s1.getLast? = some bracketClose then s1.dropLast else s1

/-- The title of an entry: `match[2].trim().replace(/^\[|\]$/g, '')`. -/
def titleOf (m : HeadingMatch) : Text := stripBrackets (trim m.rawTitle)

/-- The pattern built by `new RegExp` for the heading of chapter `n` (marker
opener, `\s*`, the decimal digits of `n`, `\s*`, marker closer), anchored at
the start of `s`. -/
def numberedMarkerAt (n : Nat) (s : Text) : Bool :=
  match s with
  | [] => false
  | c :: r =>
    c == markerOpen &&
      (let r1 := r.dropWhile isWhitespace
       (decimal n).isPrefixOf r1 &&
         (match (r1.drop (decimal n).length).dropWhile isWhitespace with
          | [] => false
          | c2 :: _ => c2 == markerClose))

/-- Index of the first match of the numbered marker in `s` (`String.match`
without the `g` flag). -/
def findNumberedMarker (n : Nat) : Text → Option Nat
  | [] => none
  | c :: cs =>
    if numberedMarkerAt n (c :: cs) then some 0
    else (findNumberedMarker n cs).map (· + 1)

/-- The lazy group `(.+?)` followed by the lookahead `(?=\n|$)` in the field
pattern of `extractField`. -/
def lazyValue : Text → Option Text
  | [] => none
  | c :: cs =>
    if isLineTerminator c then none
    else if atLineEnd cs then some [c]
    else
      match lazyValue cs with
      | some v => some (c :: v)
      | none => none

/-- The greedy `\s*` in front of a field value, with backtracking. -/
def wsThenValue : Text → Option Text
  | [] => lazyValue []
  | c :: cs =>
    if isWhitespace c then
      match wsThenValue cs with
      | some v => some v
      | none => lazyValue (c :: cs)
    else lazyValue (c :: cs)

/-- The colon class of the field pattern: full-width or ASCII colon. -/
def isColon (c : Char) : Bool := c == '：' || c == ':'

/-- The field pattern (label, colon, `\s*`, `(.+?)`, lookahead) anchored at
the start of `s`: the capture `match[1]`. -/
def fieldAt (fieldName : Text) (s : Text) : Option Text :=
  if fieldName.isPrefixOf s then
    match s.drop fieldName.length with
    | [] => none
    | c :: r => if isColon c then wsThenValue r else none
  else none

/-- First match of the field pattern in `s`. -/
def findField (fieldName : Text) : Text → Option Text
  | [] => fieldAt fieldName []
  | c :: cs =>
    match fieldAt fieldName (c :: cs) with
    | some v => some v
    | none => findField fieldName cs

/-- Embedding of `extractField(text, fieldName)`. -/
def extractField (text fieldName : Text) : Text :=
  match findField fieldName text with
  | some v => trim v
  | none => []

/-- The JavaScript `a || b` on strings. -/
def orElse (a b : Text) : Text := if a.isEmpty then b else a

/-- A structured chapter record produced by `parseChapterBlueprint`. -/
structure ChapterBlueprintEntry where
  number : Nat
  title : Text
  position : Text
  purpose : Text
  suspense : Text
  foreshadowing : Text
  twistLevel : Text
  summary : Text
  conflict : Text
  reward : Text
  deriving DecidableEq

/-- The span `chapterText` of a heading match: from the start of the match to
the first marker of the next chapter number behind the match, or to the end of
the text. -/
def chapterTextOf (blueprint : Text) (startIndex : Nat) (m : HeadingMatch) : Text :=
  let chapterNum := parseInt m.digits
  let after := blueprint.drop (startIndex + m.length)
  let endIndex :=
    match findNumberedMarker (chapterNum + 1) after with
    | some i => startIndex + m.length + i
    | none => blueprint.length
  (blueprint.take endIndex).drop startIndex

/-- The record pushed for one heading match. -/
def entryOf (blueprint : Text) (hit : Nat × HeadingMatch) : ChapterBlueprintEntry :=
  let chapterText := chapterTextOf blueprint hit.1 hit.2
  let field := fun (label : String) => extractField chapterText label.toList
  { number := parseInt hit.2.digits
    title := titleOf hit.2
    position := orElse (field "承接点") (orElse (field "本章定位") (field "开场钩子"))
    purpose := orElse (field "本章爽点兑现") (orElse (field "核心作用") (field "本章冲突"))
    suspense := orElse (field "情绪曲线") (field "悬念密度")
    foreshadowing := orElse (field "章末卡点") (field "伏笔操作")
    twistLevel := orElse (field "张力星级") (field "认知颠覆")
    summary := orElse (field "一句话剧情") (field "本章简述")
    conflict := field "本章冲突"
    reward := field "本章收益" }

/-- Embedding of `parseChapterBlueprint(blueprint)`. -/
def parseChapterBlueprint (blueprint : Text) : List ChapterBlueprintEntry :=
  if blueprint.isEmpty then []
  else (headingMatches blueprint).map (entryOf blueprint)

/-! ## Existing chapters and windowed truncation (generator.js) -/

/-- All matches of the marker pattern with the `g` flag, each turned into its
number (`parseInt` of the first run of digits of the match). -/
def markerNumbersFrom : Nat → Text → List Nat
  | _, [] => []
  | skip + 1, _ :: cs => markerNumbersFrom skip cs
  | 0, c :: cs =>
    match chapterMarker (c :: cs) with
    | some (ds, r) => parseInt ds :: markerNumbersFrom (cs.length - r.length) cs
    | none => markerNumbersFrom 0 cs

/-- The numbers of `existingChapters` in `generateChapterBlueprint`. -/
def existingChapterNumbers (blueprint : Text) : List Nat :=
  markerNumbersFrom 0 blueprint

/-- The value `maxExistingChapter`: the largest number found, or `0`. -/
def maxExistingChapter (blueprint : Text) : Nat :=
  (existingChapterNumbers blueprint).foldl max 0

/-- The lazy `.*?` (flag `s`) followed by the lookahead for the next marker or
the end of the text: the shortest prefix of `s` that ends right before a
marker or at the end. -/
def spanBody : Text → Text
  | [] => []
  | c :: cs => if (chapterMarker (c :: cs)).isSome then [] else c :: spanBody cs

/-- All matches of the span pattern of `limitChapterBlueprint` (flags `g`,
`s`): each starts at a marker and runs up to the next marker or the end. -/
def chapterSpansFrom : Nat → Text → List Text
  | _, [] => []
  | skip + 1, _ :: cs => chapterSpansFrom skip cs
  | 0, c :: cs =>
    match chapterMarker (c :: cs) with
    | some (_, r) =>
      let span := (c :: cs).take ((c :: cs).length - r.length) ++ spanBody r
      span :: chapterSpansFrom (span.length - 1) cs
    | none => chapterSpansFrom 0 cs

/-- Embedding of `Array.prototype.join`. -/
def joinWith (sep : Text) : List Text → Text
  | [] => []
  | [x] => x
  | x :: y :: rest => x ++ sep ++ joinWith sep (y :: rest)

/-- Embedding of `chapters.slice(-limit)`; `slice(-0)` is the whole array. -/
def sliceLast (limit : Nat) (xs : List Text) : List Text :=
  if limit = 0 then xs else xs.drop (xs.length - limit)

/-- Embedding of `limitChapterBlueprint(blueprint, limit)`. -/
def limitChapterBlueprint (blueprint : Text) (limit : Nat) : Text :=
  if blueprint.isEmpty then []
  else
    let chapters := chapterSpansFrom 0 blueprint
    if chapters.length ≤ limit then blueprint
    else trim (joinWith [lineFeed, lineFeed] (sliceLast limit chapters))

/-- The spans into which `limitChapterBlueprint` splits a blueprint. -/
def chapterSpans (blueprint : Text) : List Text := chapterSpansFrom 0 blueprint

/-- All matches of the marker pattern with the `g` flag, each as the text it
matched. -/
def markerTextsFrom : Nat → Text → List Text
  | _, [] => []
  | skip + 1, _ :: cs => markerTextsFrom skip cs
  | 0, c :: cs =>
    match chapterMarker (c :: cs) with
    | some (_, r) =>
      (c :: cs).take ((c :: cs).length - r.length) :: markerTextsFrom (cs.length - r.length) cs
    | none => markerTextsFrom 0 cs

/-- The occurrences of the marker pattern `第\s*\d+\s*章` in a text, in order:
the places at which `limitChapterBlueprint` splits.  A chapter number that is
only mentioned inside a field line is an occurrence too; the headings proper
are those that `parseChapterBlueprint` matches. -/
def markerOccurrences (text : Text) : List Text := markerTextsFrom 0 text

/-! ## Streaming completion with retries (llm.js) -/

/-- What one `fetch` of `streamCompletion` yields: a rejection (network-level
error), or a response with its HTTP status and the decoded chunks of its
body. -/
inductive FetchOutcome where
  | rejected (message : Text)
  | response (status : Nat) (body : List Text)
  deriving DecidableEq

/-- The error thrown by `streamCompletion`. -/
inductive RequestError where
  /-- The error `API request failed: <status>`. -/
  | requestFailed (status : Nat)
  /-- A rejection of `fetch`, rethrown as it is. -/
  | network (message : Text)
  deriving DecidableEq

/-- The observable steps of one call of `streamCompletion`. -/
inductive StreamEvent where
  /-- A `fetch` was issued for the given attempt. -/
  | request (attempt : Nat)
  /-- A backoff delay of the given number of milliseconds was awaited. -/
  | delay (milliseconds : Nat)
  deriving DecidableEq

/-- How a call of `streamCompletion` ends. -/
inductive StreamResult where
  | returned (content : Text)
  | thrown (error : RequestError)
  /-- The `for` loop ran out without returning (only when `retries = 0`). -/
  | fellThrough
  deriving DecidableEq

/-- The events of a call and its end. -/
structure StreamRun where
  events : List StreamEvent
  result : StreamResult
  deriving DecidableEq

/-- Embedding of `response.ok`. -/
def isOk (status : Nat) : Bool := 200 ≤ status && status ≤ 299

/-- Embedding of `[502, 503, 504, 429].includes(response.status)`. -/
def isRetryableStatus (status : Nat) : Bool :=
  status == 502 || status == 503 || status == 504 || status == 429

/-- Embedding of `Math.pow(2, attempt) * 1000`. -/
def backoffDelay (attempt : Nat) : Nat := 2 ^ attempt * 1000

/-- The lines of one chunk that are processed:
`chunk.split('\n').filter(line => line.trim() !== '')`. -/
def chunkLines (chunk : Text) : List Text :=
  (chunk.splitOn lineFeed).filter (fun line => !(trim line).isEmpty)

/-- The prefix `data: ` of an event line. -/
def dataPrefix : Text := "data: ".toList

/-- The end-of-stream marker `[DONE]`. -/
def doneMarker : Text := "[DONE]".toList

/-- The content contributed by one line.  `deltaOf` embeds
`JSON.parse(data).choices?.[0]?.delta?.content || ''`, with `none` when that
expression throws (the line is then skipped by the inner `catch`). -/
def lineContent (deltaOf : Text → Option Text) (line : Text) : Text :=
  if dataPrefix.isPrefixOf line then
    let data := line.drop 6
    if data = doneMarker then []
    else
      match deltaOf data with
      | some content => content
      | none => []
  else []

/-- The value of `fullContent` when the reader is done. -/
def streamContent (deltaOf : Text → Option Text) (body : List Text) : Text :=
  ((body.map chunkLines).flatten.map (lineContent deltaOf)).flatten

/-- The `for` loop of `streamCompletion`, with `remaining` iterations left
(`attempt = retries - remaining + 1`).  An error status that is not retried
by the status check is thrown inside the `try` block, so it reaches the
`catch` block of the same iteration like a rejection of `fetch`. -/
def streamAttempts (deltaOf : Text → Option Text) (server : Nat → FetchOutcome)
    (retries : Nat) : Nat → List StreamEvent → StreamRun
  | 0, events => ⟨events, .fellThrough⟩
  | remaining + 1, events =>
    let attempt := retries - remaining
    let events1 := events ++ [.request attempt]
    let catchBlock := fun (error : RequestError) =>
      if attempt < retries then
        streamAttempts deltaOf server retries remaining
          (events1 ++ [.delay (backoffDelay attempt)])
      else ⟨events1, .thrown error⟩
    match server attempt with
    | .rejected message => catchBlock (.network message)
    | .response status body =>
      if isOk status then ⟨events1, .returned (streamContent deltaOf body)⟩
      else if isRetryableStatus status && decide (attempt < retries) then
        streamAttempts deltaOf server retries remaining
          (events1 ++ [.delay (backoffDelay attempt)])
      else catchBlock (.requestFailed status)

/-- Embedding of `streamCompletion(baseUrl, apiKey, requestBody, timeout,
onStream, retries)`; `server attempt` is what the `fetch` of that attempt
yields. -/
def streamCompletionWith (deltaOf : Text → Option Text) (server : Nat → FetchOutcome)
    (retries : Nat) : StreamRun :=
  streamAttempts deltaOf server retries retries []

/-- Embedding of `streamCompletion` with the default `retries = 3`, as
`chatCompletion` calls it. -/
def streamCompletion (deltaOf : Text → Option Text) (server : Nat → FetchOutcome) :
    StreamRun :=
  streamCompletionWith deltaOf server 3

/-- The lines of a body that the read loop processes, chunk after chunk. -/
def eventLines (body : List Text) : List Text := (body.map chunkLines).flatten

/-- The content contributed by a sequence of lines. -/
def linesContent (deltaOf : Text → Option Text) (lines : List Text) : Text :=
  (lines.map (lineContent deltaOf)).flatten

/-- The end-of-stream line `data: [DONE]`. -/
def doneLine : Text := dataPrefix ++ doneMarker

/-- The text that a read ending at the marker would accumulate: the content of
the lines in front of the first end-of-stream line.  This follows the wording
of the specification, not the code. -/
def contentBeforeDone (deltaOf : Text → Option Text) (body : List Text) : Text :=
  linesContent deltaOf ((eventLines body).takeWhile (fun line => line != doneLine))

/-! ## Throttled delivery to the consumer (llm.js)

The read loop of `streamCompletion` with its callbacks.  Wall-clock time is an
input: the environment supplies the value of every call of `Date.now()` and
decides, each time the loop awaits a read, whether a pending delayed delivery
fires before the read resolves.  Timers cannot fire while a chunk is being
processed, since that code is synchronous. -/

/-- The environment of a read loop. -/
structure StreamClock where
  /-- The value of the `k`-th call of `Date.now()`. -/
  now : Nat → Nat
  /-- Whether a pending delayed delivery fires while the `i`-th read is
  awaited. -/
  fires : Nat → Bool

/-- The state of a read loop: the variables `fullContent`, `lastUpdateTime`
and `pendingUpdate` (with the increment `content` that its callback
captured), the number of calls of `Date.now()` so far, and the invocations
`onStream(increment, fullText)` made so far. -/
structure StreamState where
  fullContent : Text
  lastUpdateTime : Nat
  pendingUpdate : Option Text
  ticks : Nat
  calls : List (Text × Text)
  deriving DecidableEq

/-- The constant `throttleInterval`. -/
def throttleInterval : Nat := 100

/-- The state at the start of a read loop. -/
def StreamState.initial : StreamState :=
  { fullContent := [], lastUpdateTime := 0, pendingUpdate := none, ticks := 0, calls := [] }

/-- The callback of the delayed delivery: it passes the captured increment
and the text accumulated when it runs. -/
def fireTimer (clock : StreamClock) (st : StreamState) : StreamState :=
  match st.pendingUpdate with
  | none => st
  | some increment =>
    { st with
      calls := st.calls ++ [(increment, st.fullContent)]
      lastUpdateTime := clock.now st.ticks
      ticks := st.ticks + 1
      pendingUpdate := none }

/-- What happens while the `i`-th read is awaited. -/
def awaitRead (clock : StreamClock) (i : Nat) (st : StreamState) : StreamState :=
  if clock.fires i then fireTimer clock st else st

/-- The body of the loop over the lines of a chunk, for one line. -/
def processLine (deltaOf : Text → Option Text) (clock : StreamClock) (st : StreamState)
    (line : Text) : StreamState :=
  if dataPrefix.isPrefixOf line then
    let data := line.drop 6
    if data = doneMarker then st
    else
      match deltaOf data with
      | none => st
      | some content =>
        if content.isEmpty then st
        else
          let full := st.fullContent ++ content
          let now := clock.now st.ticks
          if st.lastUpdateTime + throttleInterval ≤ now then
            { fullContent := full, lastUpdateTime := now, pendingUpdate := none,
              ticks := st.ticks + 1, calls := st.calls ++ [(content, full)] }
          else if st.pendingUpdate.isNone then
            { st with fullContent := full, pendingUpdate := some content,
                      ticks := st.ticks + 1 }
          else { st with fullContent := full, ticks := st.ticks + 1 }
  else st

/-- The iterations of the `while (true)` loop that read a chunk: the `i`-th
read is awaited, then the lines of its chunk are processed. -/
def readChunks (deltaOf : Text → Option Text) (clock : StreamClock) :
    Nat → List Text → StreamState → StreamState
  | _, [], st => st
  | i, chunk :: rest, st =>
    readChunks deltaOf clock (i + 1) rest
      ((chunkLines chunk).foldl (processLine deltaOf clock) (awaitRead clock i st))

/-- The state when the reader reports `done`: all chunks were read and the
last read was awaited. -/
def readBody (deltaOf : Text → Option Text) (clock : StreamClock) (body : List Text) :
    StreamState :=
  awaitRead clock body.length (readChunks deltaOf clock 0 body StreamState.initial)

/-- The code behind the loop: a pending delayed delivery is cancelled and the
callback is invoked with an empty increment and the accumulated text. -/
def finishStream (st : StreamState) : StreamState :=
  { st with pendingUpdate := none, calls := st.calls ++ [([], st.fullContent)] }

/-- A call of `streamCompletion` with what the consumer observes: the
invocations of `onStream` in order, and the delayed delivery that is still
scheduled when the call ends. -/
structure ObservedRun where
  run : StreamRun
  calls : List (Text × Text)
  pendingUpdate : Option Text
  deriving DecidableEq

/-- The `for` loop of `streamCompletion` as in `streamAttempts`, with the
callbacks of the attempt whose body is read. -/
def streamAttemptsObserved (deltaOf : Text → Option Text) (clock : StreamClock)
    (server : Nat → FetchOutcome) (retries : Nat) : Nat → List StreamEvent → ObservedRun
  | 0, events => ⟨⟨events, .fellThrough⟩, [], none⟩
  | remaining + 1, events =>
    let attempt := retries - remaining
    let events1 := events ++ [.request attempt]
    let catchBlock := fun (error : RequestError) =>
      if attempt < retries then
        streamAttemptsObserved deltaOf clock server retries remaining
          (events1 ++ [.delay (backoffDelay attempt)])
      else ⟨⟨events1, .thrown error⟩, [], none⟩
    match server attempt with
    | .rejected message => catchBlock (.network message)
    | .response status body =>
      if isOk status then
        let final := finishStream (readBody deltaOf clock body)
        ⟨⟨events1, .returned final.fullContent⟩, final.calls, final.pendingUpdate⟩
      else if isRetryableStatus status && decide (attempt < retries) then
        streamAttemptsObserved deltaOf clock server retries remaining
          (events1 ++ [.delay (backoffDelay attempt)])
      else catchBlock (.requestFailed status)

/-- Embedding of `streamCompletion` with the default `retries = 3`, together
with the invocations of `onStream`. -/
def streamCompletionObserved (deltaOf : Text → Option Text) (clock : StreamClock)
    (server : Nat → FetchOutcome) : ObservedRun :=
  streamAttemptsObserved deltaOf clock server 3 3 []

/-! ## The completion client as seen by the generator (generator.js)

`chatCompletion(apiConfig, prompt, onStream)` is embedded by its outcome: the
text it resolves to, or the error it throws.  A client is a function of the
number of requests issued before in the same run and of the prompt, which
covers every behaviour of a stateful service within one run.  Progress and
stream callbacks and the pacing delays between requests do not influence the
values computed and are left out. -/

/-- The completion client. -/
abbrev Completion := Nat → Text → Except RequestError Text

/-- A project record (the fields read by the generator). -/
structure Project where
  topic : Text
  /-- The genre tags; `formatGenre` joins them. -/
  genre : List Text
  numberOfChapters : Nat
  wordNumber : Nat
  userGuidance : Text
  coreSeed : Text
  characterDynamics : Text
  characterState : Text
  worldBuilding : Text
  plotArchitecture : Text
  chapterBlueprint : Text
  /-- The chapter texts by chapter number; an absent key is the empty text. -/
  chapters : Nat → Text
  globalSummary : Text

/-- Embedding of `formatGenre(genre)`. -/
def formatGenre (genre : List Text) : Text := joinWith " / ".toList genre

/-- The text `novelArchitecture` built by `generateChapterBlueprint`. -/
def novelArchitectureOf (project : Project) : Text :=
  "\n#=== 0) 小说设定 ===\n主题：".toList ++ project.topic ++ "，类型：".toList ++
  formatGenre project.genre ++ "，篇幅：约".toList ++ decimal project.numberOfChapters ++
  "章（每章".toList ++ decimal project.wordNumber ++ "字）\n\n#=== 1) 核心种子 ===\n".toList ++
  project.coreSeed ++ "\n\n#=== 2) 角色动力学 ===\n".toList ++ project.characterDynamics ++
  "\n\n#=== 3) 世界观 ===\n".toList ++ project.worldBuilding ++
  "\n\n#=== 4) 三幕式情节架构 ===\n".toList ++ project.plotArchitecture ++ "\n".toList

/-- The parameters of the chunked blueprint prompt. -/
structure ChunkParams where
  userGuidance : Text
  novelArchitecture : Text
  numberOfChapters : Nat
  chapterList : Text
  startChapter : Nat
  endChapter : Nat
  deriving DecidableEq

/-- The parameters of the first-chapter draft prompt. -/
structure FirstDraftParams where
  chapterNumber : Nat
  chapterTitle : Text
  chapterRole : Text
  chapterPurpose : Text
  suspenseLevel : Text
  foreshadowing : Text
  plotTwistLevel : Text
  chapterSummary : Text
  novelSetting : Text
  wordNumber : Nat
  userGuidance : Text

/-- The parameters of the continuation draft prompt. -/
structure NextDraftParams where
  chapterNumber : Nat
  chapterTitle : Text
  chapterRole : Text
  chapterPurpose : Text
  suspenseLevel : Text
  foreshadowing : Text
  plotTwistLevel : Text
  chapterSummary : Text
  wordNumber : Nat
  globalSummary : Text
  previousChapterExcerpt : Text
  characterState : Text
  userGuidance : Text
  shortSummary : Text
  nextChapterNumber : Nat
  nextChapterTitle : Text
  nextChapterRole : Text
  nextChapterPurpose : Text
  nextSuspenseLevel : Text
  nextForeshadowing : Text
  nextPlotTwistLevel : Text
  nextChapterSummary : Text

/-- The templates of `chapterPrompts`.  The module that defines them is not
part of the sources at hand; they are string interpolations, taken as
parameters. -/
structure ChapterPrompts where
  blueprint : (userGuidance novelArchitecture : Text) → (numberOfChapters : Nat) → Text
  blueprintChunked : ChunkParams → Text
  firstDraft : FirstDraftParams → Text
  nextDraft : NextDraftParams → Text

/-- A request issued by `generateChapterBlueprint`. -/
inductive BlueprintRequest where
  /-- The single request for the whole range `1..numberOfChapters`. -/
  | whole (numberOfChapters : Nat) (prompt : Text)
  /-- The request of one chunk, with the parameters handed to its prompt. -/
  | chunk (params : ChunkParams) (prompt : Text)
  deriving DecidableEq

/-- The requests issued by a run of `generateChapterBlueprint` and its
outcome; `none` stands for a loop that did not finish within its fuel. -/
structure BlueprintRun where
  requests : List BlueprintRequest
  result : Option (Except RequestError Text)

/-- The update of `blueprint` after a chunk:
`if (chunkResult) blueprint = blueprint ? blueprint + '\n\n' + chunkResult : chunkResult`. -/
def appendChunk (blueprint chunkResult : Text) : Text :=
  if chunkResult.isEmpty then blueprint
  else if blueprint.isEmpty then chunkResult
  else blueprint ++ [lineFeed, lineFeed] ++ chunkResult

/-- The parameters handed to the chunked prompt for the chunk that starts at
`currentStart`; its end is `Math.min(currentStart + chunkSize - 1,
numberOfChapters)` and its context the blueprint limited to 100 chapters. -/
def chunkParamsOf (project : Project) (size currentStart : Nat) (blueprint : Text) :
    ChunkParams :=
  { userGuidance := project.userGuidance
    novelArchitecture := novelArchitectureOf project
    numberOfChapters := project.numberOfChapters
    chapterList := limitChapterBlueprint blueprint 100
    startChapter := currentStart
    endChapter := min (currentStart + size - 1) project.numberOfChapters }

/-- The request of the chunk that starts at `currentStart`. -/
def chunkRequestOf (prompts : ChapterPrompts) (project : Project) (size currentStart : Nat)
    (blueprint : Text) : BlueprintRequest :=
  .chunk (chunkParamsOf project size currentStart blueprint)
    (prompts.blueprintChunked (chunkParamsOf project size currentStart blueprint))

/-- The `while (currentStart <= numberOfChapters)` loop of
`generateChapterBlueprint`; `fuel` bounds the number of evaluations of the
loop condition. -/
def chunkLoop (prompts : ChapterPrompts) (client : Completion) (project : Project)
    (size : Nat) : Nat → Nat → Text → List BlueprintRequest → BlueprintRun
  | 0, _, _, log => ⟨log, none⟩
  | fuel + 1, currentStart, blueprint, log =>
    if currentStart ≤ project.numberOfChapters then
      let params := chunkParamsOf project size currentStart blueprint
      let log1 := log ++ [chunkRequestOf prompts project size currentStart blueprint]
      match client log.length (prompts.blueprintChunked params) with
      | .error e => ⟨log1, some (.error e)⟩
      | .ok response =>
        chunkLoop prompts client project size fuel (params.endChapter + 1)
          (appendChunk blueprint (cleanResponse response)) log1
    else ⟨log, some (.ok blueprint)⟩

/-- Embedding of `generateChapterBlueprint(project, apiConfig, ...)`;
`configuredMaxTokens` is `apiConfig.maxTokens`. -/
def generateChapterBlueprint (quotient : FlooredQuotient) (prompts : ChapterPrompts)
    (client : Completion) (project : Project) (configuredMaxTokens : Nat) : BlueprintRun :=
  let size := chunkSize quotient configuredMaxTokens project.numberOfChapters
  let blueprint := project.chapterBlueprint
  let currentStart := maxExistingChapter blueprint + 1
  if project.numberOfChapters ≤ size ∧ blueprint.isEmpty then
    let prompt := prompts.blueprint project.userGuidance (novelArchitectureOf project)
      project.numberOfChapters
    match client 0 prompt with
    | .error e => ⟨[.whole project.numberOfChapters prompt], some (.error e)⟩
    | .ok response =>
      ⟨[.whole project.numberOfChapters prompt], some (.ok (cleanResponse response))⟩
  else
    chunkLoop prompts client project size (project.numberOfChapters + 1) currentStart
      blueprint []

/-- The chapter range `(start, end)` that a request asks for. -/
def BlueprintRequest.range : BlueprintRequest → Nat × Nat
  | .whole numberOfChapters _ => (1, numberOfChapters)
  | .chunk params _ => (params.startChapter, params.endChapter)

/-- The ranges are consecutive: the first starts at `first`, each next one
starts right behind the previous one, and every range holds between one and
`size` chapters and ends at `last` or earlier. -/
def consecutiveFrom (first size last : Nat) : List (Nat × Nat) → Bool
  | [] => true
  | (s, e) :: rest =>
    s == first && decide (s ≤ e) && decide (e ≤ last) && decide (e + 1 - s ≤ size) &&
      consecutiveFrom (e + 1) size last rest

/-- The ranges partition `first..last`: they are consecutive from `first`, and
the last one ends at `last`. -/
def partitionsRange (first size last : Nat) : List (Nat × Nat) → Bool
  | [] => first == last + 1
  | (s, e) :: rest =>
    s == first && decide (s ≤ e) && decide (e ≤ last) && decide (e + 1 - s ≤ size) &&
      partitionsRange (e + 1) size last rest

/-! ## Chapter drafts (generator.js) -/

/-- The errors of `generateChapterDraft`. -/
inductive DraftError where
  /-- The error thrown when the chapter is absent from the parsed blueprint. -/
  | chapterNotFound (chapterNumber : Nat)
  /-- An error thrown by the completion client. -/
  | request (error : RequestError)
  deriving DecidableEq

/-- The prompts sent by a run of `generateChapterDraft` and its outcome. -/
structure DraftRun where
  requests : List Text
  result : Except DraftError Text

/-- The placeholder used when the following chapter is not in the blueprint.
Only the seven narrative fields of it are read. -/
def nextChapterFallback (chapterNumber : Nat) : ChapterBlueprintEntry :=
  { number := chapterNumber + 1
    title := "(未定)".toList
    position := "过渡章节".toList
    purpose := "承上启下".toList
    suspense := "中等".toList
    foreshadowing := "无特殊伏笔".toList
    twistLevel := "★☆☆☆☆".toList
    summary := "衔接过渡内容".toList
    conflict := []
    reward := [] }

/-- The text `novelSetting` built by `generateChapterDraft`. -/
def novelSettingOf (project : Project) : Text :=
  "\n小说类型：".toList ++ formatGenre project.genre ++ "\n\n核心种子：".toList ++
  project.coreSeed ++ "\n\n角色体系：".toList ++ project.characterDynamics ++
  "\n\n世界观：".toList ++ project.worldBuilding ++ "\n\n情节架构：".toList ++
  project.plotArchitecture ++ "\n".toList

/-- Embedding of `text.slice(-800)`, counted here in characters. -/
def lastChars (count : Nat) (s : Text) : Text := s.drop (s.length - count)

/-- The prompt of `generateChapterDraft` for a chapter found in the blueprint. -/
def draftPrompt (prompts : ChapterPrompts) (project : Project) (chapterNumber : Nat)
    (chapterInfo nextChapterInfo : ChapterBlueprintEntry) : Text :=
  if chapterNumber = 1 then
    prompts.firstDraft
      { chapterNumber := chapterNumber
        chapterTitle := chapterInfo.title
        chapterRole := chapterInfo.position
        chapterPurpose := chapterInfo.purpose
        suspenseLevel := chapterInfo.suspense
        foreshadowing := chapterInfo.foreshadowing
        plotTwistLevel := chapterInfo.twistLevel
        chapterSummary := chapterInfo.summary
        novelSetting := novelSettingOf project
        wordNumber := project.wordNumber
        userGuidance := project.userGuidance }
  else
    prompts.nextDraft
      { chapterNumber := chapterNumber
        chapterTitle := chapterInfo.title
        chapterRole := chapterInfo.position
        chapterPurpose := chapterInfo.purpose
        suspenseLevel := chapterInfo.suspense
        foreshadowing := chapterInfo.foreshadowing
        plotTwistLevel := chapterInfo.twistLevel
        chapterSummary := chapterInfo.summary
        wordNumber := project.wordNumber
        globalSummary := orElse project.globalSummary "(这是第一章，暂无前文摘要)".toList
        previousChapterExcerpt :=
          orElse (lastChars 800 (project.chapters (chapterNumber - 1))) "(无前章内容)".toList
        characterState := orElse project.characterState "(暂无角色状态)".toList
        userGuidance := project.userGuidance
        shortSummary := []
        nextChapterNumber := chapterNumber + 1
        nextChapterTitle := nextChapterInfo.title
        nextChapterRole := nextChapterInfo.position
        nextChapterPurpose := nextChapterInfo.purpose
        nextSuspenseLevel := nextChapterInfo.suspense
        nextForeshadowing := nextChapterInfo.foreshadowing
        nextPlotTwistLevel := nextChapterInfo.twistLevel
        nextChapterSummary := nextChapterInfo.summary }

/-- Embedding of `generateChapterDraft(project, chapterNumber, apiConfig, ...)`. -/
def generateChapterDraft (prompts : ChapterPrompts) (client : Completion)
    (project : Project) (chapterNumber : Nat) : DraftRun :=
  let chapters := parseChapterBlueprint project.chapterBlueprint
  match chapters.find? (fun c => c.number == chapterNumber) with
  | none => ⟨[], .error (.chapterNotFound chapterNumber)⟩
  | some chapterInfo =>
    let nextChapterInfo :=
      match chapters.find? (fun c => c.number == chapterNumber + 1) with
      | some next => next
      | none => nextChapterFallback chapterNumber
    let prompt := draftPrompt prompts project chapterNumber chapterInfo nextChapterInfo
    match client 0 prompt with
    | .error e => ⟨[prompt], .error (.request e)⟩
    | .ok response => ⟨[prompt], .ok (cleanResponse response)⟩

/-! ## Finalize, quality check and repair (generator.js) -/

/-- A quality report: the object returned by `checkChapterQuality`. -/
structure QualityReport where
  wordCount : Nat
  wordCountPass : Bool
  contentMatch : Bool
  nextChapterSpill : Bool
  hasCliffhanger : Bool
  overallPass : Bool
  issues : List Text
  deriving DecidableEq

/-- The parameters of the quality-check prompt. -/
structure QualityParams where
  chapterText : Text
  chapterNumber : Nat
  chapterTitle : Text
  chapterSummary : Text
  wordNumber : Nat
  actualWordCount : Nat
  nextChapterNumber : Nat
  nextChapterTitle : Text
  nextChapterSummary : Text

/-- The parameters of the repair prompt. -/
structure FixPromptParams where
  chapterText : Text
  chapterNumber : Nat
  chapterTitle : Text
  chapterSummary : Text
  wordNumber : Nat
  nextChapterNumber : Nat
  nextChapterTitle : Text
  wordCount : Nat
  wordCountPass : Bool
  contentMatch : Bool
  nextChapterSpill : Bool
  hasCliffhanger : Bool
  issues : List Text

/-- The templates of `utilityPrompts`, as functions of their parameters; the
theorems below hold for every choice of them.  The repair template may throw
while it is evaluated (`none`). -/
structure UtilityPrompts where
  summary : (chapterText globalSummary : Text) → Text
  updateCharacterState : (chapterText oldState : Text) → Text
  qualityCheck : QualityParams → Text
  fixChapter : FixPromptParams → Option Text

/-- The object returned by `finalizeChapter`. -/
structure FinalizeResult where
  globalSummary : Text
  characterState : Text
  deriving DecidableEq

/-- The prompts sent by a run of `finalizeChapter` and its outcome. -/
structure FinalizeRun where
  requests : List Text
  result : Except RequestError FinalizeResult

/-- Embedding of `finalizeChapter(project, chapterNumber, chapterText, ...)`;
the argument `chapterNumber` is not read by the function.  Neither request is
wrapped in a `try`: an error of the client is thrown on. -/
def finalizeChapter (prompts : UtilityPrompts) (client : Completion) (project : Project)
    (chapterText : Text) : FinalizeRun :=
  let summaryRequest := prompts.summary chapterText project.globalSummary
  match client 0 summaryRequest with
  | .error e => ⟨[summaryRequest], .error e⟩
  | .ok summaryResponse =>
    let newSummary := cleanResponse summaryResponse
    let stateRequest := prompts.updateCharacterState chapterText project.characterState
    match client 1 stateRequest with
    | .error e => ⟨[summaryRequest, stateRequest], .error e⟩
    | .ok stateResponse =>
      let newCharacterState := cleanResponse stateResponse
      ⟨[summaryRequest, stateRequest],
        .ok { globalSummary := orElse newSummary project.globalSummary
              characterState := orElse newCharacterState project.characterState }⟩

/-- The left brace. -/
def braceOpen : Char := Char.ofNat 123

/-- The right brace. -/
def braceClose : Char := Char.ofNat 125

/-- The match of the pattern (left brace, greedy `[\s\S]*`, right brace) in
`checkChapterQuality`: from the first left brace to the last right brace behind
it. -/
def jsonSpan (response : Text) : Option Text :=
  match response.dropWhile (fun c => c != braceOpen) with
  | [] => none
  | c :: r =>
    let inner := r.rdropWhile (fun x => x != braceClose)
    if inner.isEmpty then none else some (c :: inner)

/-- The default-pass report of `checkChapterQuality`.  The word count is
`chapterText.length`, counted here in characters. -/
def defaultReport (chapterText : Text) (issues : List Text) : QualityReport :=
  { wordCount := chapterText.length
    wordCountPass := true
    contentMatch := true
    nextChapterSpill := false
    hasCliffhanger := true
    overallPass := true
    issues := issues }

/-- The parameters of `checkChapterQuality`. -/
structure CheckParams where
  chapterText : Text
  chapterNumber : Nat
  chapterTitle : Text
  chapterSummary : Text
  wordNumber : Nat
  actualWordCount : Nat
  nextChapterNumber : Nat
  nextChapterTitle : Text
  nextChapterSummary : Text

/-- The prompt built by `checkChapterQuality`. -/
def qualityPromptOf (prompts : UtilityPrompts) (params : CheckParams) : Text :=
  prompts.qualityCheck
    { chapterText := params.chapterText
      chapterNumber := params.chapterNumber
      chapterTitle := params.chapterTitle
      chapterSummary := params.chapterSummary
      wordNumber := params.wordNumber
      actualWordCount :=
        if params.actualWordCount = 0 then params.chapterText.length
        else params.actualWordCount
      nextChapterNumber :=
        if params.nextChapterNumber = 0 then params.chapterNumber + 1
        else params.nextChapterNumber
      nextChapterTitle := orElse params.nextChapterTitle "(无)".toList
      nextChapterSummary := orElse params.nextChapterSummary "(无)".toList }

/-- The issue recorded when the request of the quality check fails. -/
def requestFailedIssue : Text := "质检请求失败，已跳过".toList

/-- Embedding of `checkChapterQuality(params, apiConfig)`.  `jsonParse` embeds
`JSON.parse` on the matched span, `none` when it throws.  The function never
throws: both `catch` blocks return a report. -/
def checkChapterQuality (prompts : UtilityPrompts) (jsonParse : Text → Option QualityReport)
    (client : Completion) (params : CheckParams) : QualityReport :=
  match client 0 (qualityPromptOf prompts params) with
  | .error _ => defaultReport params.chapterText [requestFailedIssue]
  | .ok response =>
    match jsonSpan response with
    | none => defaultReport params.chapterText []
    | some span =>
      match jsonParse span with
      | some report => report
      | none => defaultReport params.chapterText []

/-- The parameters of `fixChapterByQuality`. -/
structure FixParams where
  chapterText : Text
  chapterNumber : Nat
  chapterTitle : Text
  chapterSummary : Text
  wordNumber : Nat
  nextChapterNumber : Nat
  nextChapterTitle : Text
  qualityResult : QualityReport

/-- The parameters handed to the repair template by `fixChapterByQuality`. -/
def fixPromptParamsOf (params : FixParams) : FixPromptParams :=
  { chapterText := params.chapterText
    chapterNumber := params.chapterNumber
    chapterTitle := params.chapterTitle
    chapterSummary := params.chapterSummary
    wordNumber := params.wordNumber
    nextChapterNumber :=
      if params.nextChapterNumber = 0 then params.chapterNumber + 1
      else params.nextChapterNumber
    nextChapterTitle := orElse params.nextChapterTitle "(无)".toList
    wordCount := params.qualityResult.wordCount
    wordCountPass := params.qualityResult.wordCountPass
    contentMatch := params.qualityResult.contentMatch
    nextChapterSpill := params.qualityResult.nextChapterSpill
    hasCliffhanger := params.qualityResult.hasCliffhanger
    issues := params.qualityResult.issues }

/-- The prompts sent by a run of `fixChapterByQuality` and the text returned. -/
structure FixRun where
  requests : List Text
  result : Text
  deriving DecidableEq

/-- Embedding of `fixChapterByQuality(params, apiConfig, ...)`.  The report is
only copied into the prompt; no field of it is tested. -/
def fixChapterByQuality (prompts : UtilityPrompts) (client : Completion)
    (params : FixParams) : FixRun :=
  match prompts.fixChapter (fixPromptParamsOf params) with
  | none => ⟨[], params.chapterText⟩
  | some prompt =>
    match client 0 prompt with
    | .error _ => ⟨[prompt], params.chapterText⟩
    | .ok response => ⟨[prompt], orElse (cleanResponse response) params.chapterText⟩

/-- A report whose flags all pass. -/
def QualityReport.allPass (report : QualityReport) : Bool :=
  report.overallPass && report.wordCountPass && report.contentMatch &&
    !report.nextChapterSpill && report.hasCliffhanger

/-! ## Architecture generation (generator.js) -/

/-- The five architecture fields, in the order of their sub-stages. -/
inductive ArchitectureField where
  | coreSeed
  | characterDynamics
  | characterState
  | worldBuilding
  | plotArchitecture
  deriving DecidableEq

/-- The value of an architecture field in a project snapshot. -/
def ArchitectureField.get (field : ArchitectureField) (p : Project) : Text :=
  match field with
  | .coreSeed => p.coreSeed
  | .characterDynamics => p.characterDynamics
  | .characterState => p.characterState
  | .worldBuilding => p.worldBuilding
  | .plotArchitecture => p.plotArchitecture

/-- The assignment `results.<field> = value`. -/
def ArchitectureField.set (field : ArchitectureField) (p : Project) (value : Text) : Project :=
  match field with
  | .coreSeed => { p with coreSeed := value }
  | .characterDynamics => { p with characterDynamics := value }
  | .characterState => { p with characterState := value }
  | .worldBuilding => { p with worldBuilding := value }
  | .plotArchitecture => { p with plotArchitecture := value }

/-- The fields that come before a field in the order coreSeed,
characterDynamics, characterState, worldBuilding, plotArchitecture. -/
def ArchitectureField.predecessors : ArchitectureField → List ArchitectureField
  | .coreSeed => []
  | .characterDynamics => [.coreSeed]
  | .characterState => [.coreSeed, .characterDynamics]
  | .worldBuilding => [.coreSeed, .characterDynamics, .characterState]
  | .plotArchitecture => [.coreSeed, .characterDynamics, .characterState, .worldBuilding]

/-- The templates of `architecturePrompts`.  The module that defines them is
not part of the sources at hand; they are string interpolations of a project
snapshot, taken as parameters. -/
structure ArchitecturePrompts where
  coreSeed : Project → Text
  characterDynamics : Project → Text
  characterState : Project → Text
  worldBuilding : Project → Text
  plotArchitecture : Project → Text

/-- One sub-stage of `generateArchitecture`: the field it fills, the condition
of its `if` on the working snapshot `results`, and its prompt. -/
structure ArchitectureStage where
  field : ArchitectureField
  guard : Project → Bool
  promptOf : Project → Text

/-- The five sub-stages of `generateArchitecture` in source order.  The first
prompt is built from the input `project`, the others from
`{ ...project, ...results }`, which is the working snapshot.  Only the third
sub-stage tests a field other than its own. -/
def architectureStages (prompts : ArchitecturePrompts) (project : Project) :
    List ArchitectureStage :=
  [ { field := .coreSeed
      guard := fun results => results.coreSeed.isEmpty
      promptOf := fun _ => prompts.coreSeed project },
    { field := .characterDynamics
      guard := fun results => results.characterDynamics.isEmpty
      promptOf := prompts.characterDynamics },
    { field := .characterState
      guard := fun results =>
        results.characterState.isEmpty && !results.characterDynamics.isEmpty
      promptOf := prompts.characterState },
    { field := .worldBuilding
      guard := fun results => results.worldBuilding.isEmpty
      promptOf := prompts.worldBuilding },
    { field := .plotArchitecture
      guard := fun results => results.plotArchitecture.isEmpty
      promptOf := prompts.plotArchitecture } ]

/-- A completion request of `generateArchitecture`: the field it is for, the
working snapshot at the moment it is issued, and its prompt. -/
structure ArchitectureRequest where
  field : ArchitectureField
  snapshot : Project
  prompt : Text

/-- The requests issued by a run of `generateArchitecture` and its outcome:
the returned snapshot, or the error thrown by the client. -/
structure ArchitectureRun where
  requests : List ArchitectureRequest
  result : Except RequestError Project

/-- The sub-stages run one after the other on the working snapshot; an error
of the client ends the run (no sub-stage is wrapped in a `try`). -/
def runStages (client : Completion) :
    List ArchitectureStage → List ArchitectureRequest → Project → ArchitectureRun
  | [], log, results => ⟨log, .ok results⟩
  | stage :: rest, log, results =>
    if stage.guard results then
      let prompt := stage.promptOf results
      let log1 := log ++ [⟨stage.field, results, prompt⟩]
      match client log.length prompt with
      | .error e => ⟨log1, .error e⟩
      | .ok response =>
        runStages client rest log1 (stage.field.set results (cleanResponse response))
    else runStages client rest log results

/-- Embedding of `generateArchitecture(project, apiConfig, ...)`: the working
snapshot starts as a copy of the project. -/
def generateArchitecture (prompts : ArchitecturePrompts) (client : Completion)
    (project : Project) : ArchitectureRun :=
  runStages client (architectureStages prompts project) [] project

/-- The sub-stages come in field order: each one's predecessors are the
fields `done` of the sub-stages before it, and when those are populated and
its condition is false, its own field is populated. -/
def stagesInOrder : List ArchitectureField → List ArchitectureStage → Prop
  | _, [] => True
  | done, stage :: rest =>
    stage.field.predecessors = done ∧
      (∀ r, (∀ g ∈ done, g.get r ≠ []) → stage.guard r = false → stage.field.get r ≠ []) ∧
      stagesInOrder (done ++ [stage.field]) rest

/-! ## Well-formed blueprint texts

The layout on which the parser is specified: a preamble, then one span per
chapter, each made of a heading and a body.  These definitions describe the
input of `parseChapterBlueprint`; they embed no code. -/

/-- One chapter of a well-formed blueprint text: the heading (marker opener,
number, marker closer, separator, title, with optional whitespace in between
and optional square brackets around the title) and the body that follows it
(the field lines). -/
structure ChapterLayout where
  number : Nat
  /-- Whitespace between the marker opener and the number. -/
  gap1 : Text
  /-- Whitespace between the number and the marker closer. -/
  gap2 : Text
  /-- Whitespace between the marker closer and the separator. -/
  gap3 : Text
  separator : Char
  /-- Whitespace between the separator and the title. -/
  gap4 : Text
  /-- Whether the title is written in square brackets. -/
  bracketed : Bool
  title : Text
  /-- The text from the end of the heading line to the next heading. -/
  body : Text

/-- The title as written in the heading, with its brackets if any. -/
def ChapterLayout.titlePart (c : ChapterLayout) : Text :=
  if c.bracketed then bracketOpen :: (c.title ++ [bracketClose]) else c.title

/-- The heading of a chapter as text. -/
def ChapterLayout.heading (c : ChapterLayout) : Text :=
  markerOpen :: (c.gap1 ++ (decimal c.number ++ (c.gap2 ++ (markerClose ::
    (c.gap3 ++ (c.separator :: (c.gap4 ++ c.titlePart)))))))

/-- The chapters of a blueprint as text, one after the other. -/
def renderChapters : List ChapterLayout → Text
  | [] => []
  | c :: cs => c.heading ++ (c.body ++ renderChapters cs)

/-- A blueprint text: a preamble followed by the chapters. -/
def renderBlueprint (preamble : Text) (chapters : List ChapterLayout) : Text :=
  preamble ++ renderChapters chapters

/-- A title the heading can carry as it is: non-empty, on one line, without
whitespace or a square bracket at either end. -/
def plainTitle (t : Text) : Bool :=
  t.all (fun c => !isLineTerminator c) &&
    (match t.head? with
     | some c => !isWhitespace c && c != bracketOpen
     | none => false) &&
    (match t.getLast? with
     | some c => !isWhitespace c && c != bracketClose
     | none => false)

/-- A well-formed heading: whitespace only in the gaps, a separator of the
accepted class, a plain title. -/
def wellFormedHeading (c : ChapterLayout) : Bool :=
  c.gap1.all isWhitespace && c.gap2.all isWhitespace && c.gap3.all isWhitespace &&
    c.gap4.all isWhitespace && isSeparator c.separator && plainTitle c.title

/-- No match of the heading pattern starts inside `inner` when `rest` follows
it. -/
def noHeadingInside (inner rest : Text) : Bool :=
  inner.tails.all (fun s => s.isEmpty || (headingAt (s ++ rest)).isNone)

/-- The body starts on a new line; only the last chapter may have no body. -/
def bodyStartsLine (body : Text) (following : List ChapterLayout) : Bool :=
  match body with
  | [] => following.isEmpty
  | c :: _ => c == lineFeed

/-- The chapters are well formed and numbered `first, first + 1, ...` in
order, and no further heading starts inside a body. -/
def wellFormedChapters : Nat → List ChapterLayout → Bool
  | _, [] => true
  | first, c :: cs =>
    c.number == first && wellFormedHeading c && bodyStartsLine c.body cs &&
      noHeadingInside c.body (renderChapters cs) && wellFormedChapters (first + 1) cs

/-- A blueprint text that contains exactly the well-formed headings of
`chapters`, numbered from 1 in order: no heading starts inside the preamble or
inside a body. -/
def wellFormedBlueprint (preamble : Text) (chapters : List ChapterLayout) : Bool :=
  noHeadingInside preamble (renderChapters chapters) && wellFormedChapters 1 chapters

/-- The number and the title that an entry takes from a heading match. -/
def keyOf (hit : Nat × HeadingMatch) : Nat × Text := (parseInt hit.2.digits, titleOf hit.2)

/-! ## Sample inputs -/

/-- Utility templates that render every prompt as the empty text. -/
def blankUtilityPrompts : UtilityPrompts :=
  { summary := fun _ _ => []
    updateCharacterState := fun _ _ => []
    qualityCheck := fun _ => []
    fixChapter := fun _ => some [] }

/-- Chapter templates that render every prompt as the empty text. -/
def blankChapterPrompts : ChapterPrompts :=
  { blueprint := fun _ _ _ => []
    blueprintChunked := fun _ => []
    firstDraft := fun _ => []
    nextDraft := fun _ => [] }

/-- A project with the given chapter count and blueprint and no other content. -/
def sampleProject (numberOfChapters : Nat) (chapterBlueprint : Text) : Project :=
  { topic := []
    genre := []
    numberOfChapters := numberOfChapters
    wordNumber := 1000
    userGuidance := []
    coreSeed := []
    characterDynamics := []
    characterState := "旧状态".toList
    worldBuilding := []
    plotArchitecture := []
    chapterBlueprint := chapterBlueprint
    chapters := fun _ => []
    globalSummary := "旧摘要".toList }

/-- Architecture templates that render every prompt as the empty text. -/
def blankArchitecturePrompts : ArchitecturePrompts :=
  { coreSeed := fun _ => []
    characterDynamics := fun _ => []
    characterState := fun _ => []
    worldBuilding := fun _ => []
    plotArchitecture := fun _ => [] }

/-- A project without any generated content. -/
def emptyProject : Project :=
  { topic := []
    genre := []
    numberOfChapters := 3
    wordNumber := 1000
    userGuidance := []
    coreSeed := []
    characterDynamics := []
    characterState := []
    worldBuilding := []
    plotArchitecture := []
    chapterBlueprint := []
    chapters := fun _ => []
    globalSummary := [] }

/-- A client whose first answer is empty and whose later answers are `文`. -/
def emptyFirstClient : Completion := fun i _ => if i = 0 then .ok [] else .ok "文".toList

/-- A project whose five architecture fields are populated. -/
def populatedProject : Project :=
  { emptyProject with
    coreSeed := "种子".toList
    characterDynamics := "角色".toList
    characterState := "状态".toList
    worldBuilding := "世界".toList
    plotArchitecture := "情节".toList }

/-- A clock that starts at 1000 ms and advances by 30 ms with every call of
`Date.now()`; no delayed delivery fires before the reader is done. -/
def fastClock : StreamClock := { now := fun k => 1000 + 30 * k, fires := fun _ => false }

/-- A client that answers every request with the same text. -/
def constantClient (response : Text) : Completion := fun _ _ => .ok response

/-- A client whose every request fails with the given status. -/
def failingClient (status : Nat) : Completion := fun _ _ => .error (.requestFailed status)

/-- The number of requests among the events of a stream run. -/
def requestCount (events : List StreamEvent) : Nat :=
  (events.filter (fun e => match e with | .request _ => true | .delay _ => false)).length

/-- The backoff delays among the events of a stream run, in order. -/
def delaysOf (events : List StreamEvent) : List Nat :=
  events.filterMap (fun e => match e with | .request _ => none | .delay ms => some ms)

/-- Two chapters laid out in the two heading styles the parser accepts, the
first followed by the field lines of the current format, the second (title in
brackets) by those of the older format. -/
def sampleChapters : List ChapterLayout :=
  [ { number := 1, gap1 := [], gap2 := [], gap3 := " ".toList, separator := '-',
      gap4 := " ".toList, bracketed := false, title := "开端".toList,
      body := ("\n承接点：无\n本章爽点兑现：初胜\n情绪曲线：低到高\n章末卡点：强敌现身\n" ++
        "张力星级：★★★\n一句话剧情：主角登场\n本章冲突：入门试炼\n本章收益：获得信物\n\n").toList },
    { number := 2, gap1 := " ".toList, gap2 := " ".toList, gap3 := [], separator := '｜',
      gap4 := [], bracketed := true, title := "转折".toList,
      body := ("\n本章定位：承接第1章结尾\n核心作用：反转\n悬念密度：高\n伏笔操作：埋下信物\n" ++
        "认知颠覆：★★\n本章简述：师门生变\n").toList } ]

/-! # Theorems -/

/-! ## Chunk size -/

/-- The clamp keeps every raw quotient within `[5, 25]`, whatever rounding
produced it. -/
theorem clampChunkSize_range (raw n : Nat) :
    5 ≤ clampChunkSize raw n ∧ clampChunkSize raw n ≤ 25 := by
  unfold clampChunkSize
  omega

/-- C1 as stated fails: with `maxTokens = 8192` (quotient `16`) and
`numberOfChapters = 3` the chunk size is `5`, above `min(25, 3) = 3`. -/
theorem chunkSize_above_chapter_count :
    (1000 ≤ 8192 ∧ 8192 ≤ 100000) ∧ (1 ≤ 3 ∧ 3 ≤ 500) ∧ exactQuotient 8192 = 16 ∧
      chunkSize exactQuotient 8192 3 = 5 ∧
      ¬ (5 ≤ chunkSize exactQuotient 8192 3 ∧ chunkSize exactQuotient 8192 3 ≤ min 25 3) := by
  decide

/-- C1 amended: for `maxTokens` in `[1000, 100000]` and `numberOfChapters` in
`[1, 500]` the chunk size lies within `[5, max(5, min(25, numberOfChapters))]`:
within `[5, min(25, numberOfChapters)]` when there are at least five chapters,
and exactly `5` when there are fewer.  This holds whatever the floored quotient
evaluates to. -/
theorem chunkSize_bounds (quotient : FlooredQuotient) (maxTokens n : Nat)
    (_hm : 1000 ≤ maxTokens ∧ maxTokens ≤ 100000) (_hn : 1 ≤ n ∧ n ≤ 500) :
    (5 ≤ chunkSize quotient maxTokens n ∧
        chunkSize quotient maxTokens n ≤ max 5 (min 25 n)) ∧
      (5 ≤ n → chunkSize quotient maxTokens n ≤ min 25 n) ∧
      (n < 5 → chunkSize quotient maxTokens n = 5) := by
  unfold chunkSize clampChunkSize
  omega

/-- Witness of `chunkSize_bounds` at `maxTokens = 8192`, `numberOfChapters = 120`. -/
theorem chunkSize_bounds_witness :
    (5 ≤ chunkSize exactQuotient 8192 120 ∧
        chunkSize exactQuotient 8192 120 ≤ max 5 (min 25 120)) ∧
      (5 ≤ 120 → chunkSize exactQuotient 8192 120 ≤ min 25 120) ∧
      (120 < 5 → chunkSize exactQuotient 8192 120 = 5) :=
  chunkSize_bounds exactQuotient 8192 120 (by decide) (by decide)

/-! ## Response sanitizer -/

/-- A text without the first character of the fence has no fenced block to
remove. -/
theorem removeFencesFrom_of_not_mem (s : Text) (h : backtick ∉ s) :
    removeFencesFrom 0 s = s := by
  induction s with
  | nil => rfl
  | cons c cs ih =>
    have hc : c ≠ backtick := fun hc => h (by simp [hc])
    have hcs : backtick ∉ cs := fun hm => h (List.mem_cons_of_mem _ hm)
    have hp : fence.isPrefixOf (c :: cs) = false := by
      simp [fence, List.isPrefixOf, hc.symm]
    simp [removeFencesFrom, hp, ih hcs]

/-- Removing the backticks leaves none. -/
theorem backtick_not_mem_removeBackticks (s : Text) : backtick ∉ removeBackticks s := by
  simp [removeBackticks, List.mem_filter]

/-- Trimming selects a contiguous part of the text. -/
theorem trim_subset (s : Text) : ∀ c ∈ trim s, c ∈ s := by
  intro c hc
  have h1 : c ∈ s.dropWhile isWhitespace :=
    (List.rdropWhile_prefix isWhitespace _).subset hc
  exact (List.dropWhile_suffix isWhitespace).subset h1

/-- A list whose first element fails the test loses nothing to `dropWhile`. -/
theorem dropWhile_eq_self_of_head {α : Type} (p : α → Bool) (l : List α)
    (h : ∀ a r, l = a :: r → p a = false) : l.dropWhile p = l := by
  cases l with
  | nil => rfl
  | cons a r => simp [List.dropWhile, h a r rfl]

/-- The first element left by `dropWhile` fails the test. -/
theorem dropWhile_head_false {α : Type} (p : α → Bool) (s : List α) (a : α) (r : List α)
    (h : s.dropWhile p = a :: r) : p a = false := by
  have hne : s.dropWhile p ≠ [] := by simp [h]
  have := List.head_dropWhile_not p s hne
  simpa [h] using this

/-- Trimming is idempotent. -/
theorem trim_trim (s : Text) : trim (trim s) = trim s := by
  unfold trim
  have hd : ((s.dropWhile isWhitespace).rdropWhile isWhitespace).dropWhile isWhitespace
      = (s.dropWhile isWhitespace).rdropWhile isWhitespace := by
    apply dropWhile_eq_self_of_head
    intro a r har
    obtain ⟨u, hu⟩ := List.rdropWhile_prefix isWhitespace (s.dropWhile isWhitespace)
    rw [har] at hu
    exact dropWhile_head_false isWhitespace s a (r ++ u) (by simpa using hu.symm)
  rw [hd, List.rdropWhile_idempotent]

/-- The result of `cleanResponse` contains no backtick. -/
theorem backtick_not_mem_cleanResponse (x : Text) : backtick ∉ cleanResponse x := by
  unfold cleanResponse
  split
  · simp
  · intro h
    exact backtick_not_mem_removeBackticks _ (trim_subset _ _ h)

/-- C8: `cleanResponse` is idempotent: cleaning a cleaned text changes nothing. -/
theorem cleanResponse_idempotent (x : Text) :
    cleanResponse (cleanResponse x) = cleanResponse x := by
  have hno := backtick_not_mem_cleanResponse x
  by_cases hx : x.isEmpty = true
  · simp [cleanResponse, hx]
  · have hy : cleanResponse x = trim (removeBackticks (removeFences x)) := by
      simp [cleanResponse, hx]
    by_cases he : (cleanResponse x).isEmpty = true
    · have h0 : cleanResponse x = [] := List.isEmpty_iff.mp he
      rw [h0]
      rfl
    · have hstep : cleanResponse (cleanResponse x)
          = trim (removeBackticks (removeFences (cleanResponse x))) := by
        generalize cleanResponse x = y at he
        simp [cleanResponse, he]
      have hf : removeFences (cleanResponse x) = cleanResponse x :=
        removeFencesFrom_of_not_mem _ hno
      have hb : removeBackticks (cleanResponse x) = cleanResponse x := by
        unfold removeBackticks
        rw [List.filter_eq_self]
        intro c hc
        have : c ≠ backtick := fun h => hno (h ▸ hc)
        simpa using this
      rw [hstep, hf, hb]
      conv_lhs => rw [hy]
      rw [trim_trim, ← hy]

/-! ## Quality check and repair -/

/-- C2 at the failing input: the request succeeds with a response that holds no
JSON object (`合格`), and the report returned passes with an empty issues
list, not with one entry. -/
theorem checkChapterQuality_unparseable_response_no_issue :
    jsonSpan "合格".toList = none ∧
      (checkChapterQuality blankUtilityPrompts (fun _ => none) (constantClient "合格".toList)
        ⟨"正文".toList, 1, [], [], 1000, 0, 0, [], []⟩).overallPass = true ∧
      (checkChapterQuality blankUtilityPrompts (fun _ => none) (constantClient "合格".toList)
        ⟨"正文".toList, 1, [], [], 1000, 0, 0, [], []⟩).issues = [] := by
  decide

/-- C3 as stated fails: with a report whose flags all pass, a client that
answers `新稿` makes `fixChapterByQuality` return `新稿` for the chapter text
`原稿`. -/
theorem fixChapterByQuality_rewrites_passing_chapter :
    (defaultReport "原稿".toList []).overallPass = true ∧
      (defaultReport "原稿".toList []).allPass = true ∧
      (fixChapterByQuality blankUtilityPrompts (constantClient "新稿".toList)
        ⟨"原稿".toList, 1, [], [], 1000, 0, [], defaultReport "原稿".toList []⟩).result
        = "新稿".toList ∧
      (fixChapterByQuality blankUtilityPrompts (constantClient "新稿".toList)
        ⟨"原稿".toList, 1, [], [], 1000, 0, [], defaultReport "原稿".toList []⟩).result
        ≠ "原稿".toList := by
  decide

/-- C3 amended: for every chapter text, every report with `overallPass = true`
and every behaviour of the client, `fixChapterByQuality` returns the chapter
text unchanged exactly when the prompt cannot be built, the request fails, the
sanitized response is empty, or the sanitized response is the chapter text
itself; in every other case it returns the sanitized response. -/
theorem fixChapterByQuality_result_of_pass (prompts : UtilityPrompts) (client : Completion)
    (params : FixParams) (_hpass : params.qualityResult.overallPass = true) :
    ((fixChapterByQuality prompts client params).result = params.chapterText ↔
      (prompts.fixChapter (fixPromptParamsOf params) = none ∨
        ∃ prompt, prompts.fixChapter (fixPromptParamsOf params) = some prompt ∧
          ((∃ e, client 0 prompt = .error e) ∨
            ∃ response, client 0 prompt = .ok response ∧
              (cleanResponse response = [] ∨ cleanResponse response = params.chapterText)))) ∧
      (∀ prompt response, prompts.fixChapter (fixPromptParamsOf params) = some prompt →
        client 0 prompt = .ok response → cleanResponse response ≠ [] →
        (fixChapterByQuality prompts client params).result = cleanResponse response) := by
  unfold fixChapterByQuality
  cases hp : prompts.fixChapter (fixPromptParamsOf params) with
  | none => simp
  | some prompt =>
    cases hc : client 0 prompt with
    | error e =>
      refine ⟨by simp [hc], ?_⟩
      intro q r hq hr _
      cases hq
      rw [hc] at hr
      cases hr
    | ok response =>
      have hsecond : ∀ q r, some prompt = some q → client 0 q = .ok r →
          cleanResponse r ≠ [] → r = response := by
        intro q r hq hr _
        cases hq
        rw [hc] at hr
        cases hr
        rfl
      by_cases he : cleanResponse response = []
      · refine ⟨by simp [hc, he, orElse], ?_⟩
        intro q r hq hr hne
        have := hsecond q r hq hr hne
        subst this
        exact absurd he hne
      · have hb : (cleanResponse response).isEmpty = false := by
          cases hr : cleanResponse response with
          | nil => exact absurd hr he
          | cons a l => rfl
        refine ⟨by simp [hc, he, orElse, hb], ?_⟩
        intro q r hq hr hne
        have := hsecond q r hq hr hne
        subst this
        simp [hc, orElse, hb]

/-- Witness of `fixChapterByQuality_result_of_pass`: a passing report and a
client that answers `新稿`. -/
theorem fixChapterByQuality_result_of_pass_witness :
    (fixChapterByQuality blankUtilityPrompts (constantClient "新稿".toList)
      ⟨"原稿".toList, 1, [], [], 1000, 0, [], defaultReport "原稿".toList []⟩).result
      = cleanResponse "新稿".toList :=
  (fixChapterByQuality_result_of_pass blankUtilityPrompts (constantClient "新稿".toList)
    ⟨"原稿".toList, 1, [], [], 1000, 0, [], defaultReport "原稿".toList []⟩ (by decide)).2
    [] "新稿".toList rfl rfl (by decide)

/-! ## Streaming completion -/

/-- C4 at the failing input: a server that answers every attempt with status
404 (not 2xx, not retryable) is asked three times, with backoff delays of 2 s
and 4 s, before the error is thrown. -/
theorem streamCompletion_retries_status_404 :
    isOk 404 = false ∧ isRetryableStatus 404 = false ∧
      streamCompletion (fun _ => none) (fun _ => .response 404 []) =
        ⟨[.request 1, .delay 2000, .request 2, .delay 4000, .request 3],
          .thrown (.requestFailed 404)⟩ := by
  decide

/-- A retryable status is not a success status. -/
theorem isOk_of_retryable (s : Nat) (h : isRetryableStatus s = true) : isOk s = false := by
  simp only [isRetryableStatus, Bool.or_eq_true, beq_iff_eq] at h
  rcases h with ((h | h) | h) | h <;> subst h <;> decide

/-- C9: if the first `k ≤ 2` attempts are answered with a retryable status
`s` and attempt `k + 1` succeeds, `streamCompletion` returns the content of the
successful attempt after exactly `k + 1` requests, and the backoff delays are
`2^1, ..., 2^k` seconds in that order. -/
theorem streamCompletion_retry_backoff (deltaOf : Text → Option Text)
    (server : Nat → FetchOutcome) (s k status : Nat) (body : List Text)
    (hs : isRetryableStatus s = true) (hk : k ≤ 2)
    (hfail : ∀ i, 1 ≤ i → i ≤ k → ∃ b, server i = .response s b)
    (hsucc : server (k + 1) = .response status body) (hstatus : isOk status = true) :
    (streamCompletion deltaOf server).result = .returned (streamContent deltaOf body) ∧
      requestCount (streamCompletion deltaOf server).events = k + 1 ∧
      delaysOf (streamCompletion deltaOf server).events
        = (List.range k).map (fun i => 2 ^ (i + 1) * 1000) ∧
      (streamCompletion deltaOf server).events
        = (List.range k).flatMap
            (fun i => [StreamEvent.request (i + 1), StreamEvent.delay (2 ^ (i + 1) * 1000)])
          ++ [StreamEvent.request (k + 1)] := by
  have hnot := isOk_of_retryable s hs
  have hk3 : k = 0 ∨ k = 1 ∨ k = 2 := by omega
  rcases hk3 with rfl | rfl | rfl
  · simp [streamCompletion, streamCompletionWith, streamAttempts, hsucc, hstatus,
      requestCount, delaysOf]
  · obtain ⟨b1, h1⟩ := hfail 1 (by omega) (by omega)
    simp [streamCompletion, streamCompletionWith, streamAttempts, hsucc, hstatus, h1, hnot,
      hs, requestCount, delaysOf, backoffDelay, List.range_succ]
  · obtain ⟨b1, h1⟩ := hfail 1 (by omega) (by omega)
    obtain ⟨b2, h2⟩ := hfail 2 (by omega) (by omega)
    simp [streamCompletion, streamCompletionWith, streamAttempts, hsucc, hstatus, h1, h2,
      hnot, hs, requestCount, delaysOf, backoffDelay, List.range_succ]

/-- Witness of `streamCompletion_retry_backoff`: 503, 503, then success gives
three requests and the delays 2 s, 4 s. -/
theorem streamCompletion_retry_backoff_witness :
    (streamCompletion (fun d => some d)
        (fun a => if a < 3 then .response 503 [] else .response 200 ["data: 完".toList])).result
        = .returned "完".toList ∧
      delaysOf (streamCompletion (fun d => some d)
        (fun a => if a < 3 then .response 503 [] else .response 200 ["data: 完".toList])).events
        = [2000, 4000] := by
  have h := streamCompletion_retry_backoff (fun d => some d)
    (fun a => if a < 3 then .response 503 [] else .response 200 ["data: 完".toList])
    503 2 200 ["data: 完".toList] (by decide) (by decide)
    (fun i _ h2 => ⟨[], by
      have : i < 3 := by omega
      simp [this]⟩)
    (by decide) (by decide)
  exact ⟨h.1.trans (by decide), h.2.2.1.trans (by decide)⟩

/-! ## Finalize -/

/-- C10 as stated fails: when the summary request fails, `finalizeChapter`
throws the error of the client and returns no fields at all. -/
theorem finalizeChapter_throws_on_failed_request :
    (finalizeChapter blankUtilityPrompts (failingClient 503) (sampleProject 3 [])
        "正文".toList).result = .error (.requestFailed 503) ∧
      ¬ ∃ out, (finalizeChapter blankUtilityPrompts (failingClient 503) (sampleProject 3 [])
        "正文".toList).result = .ok out ∧
        out.globalSummary = (sampleProject 3 []).globalSummary := by
  refine ⟨rfl, ?_⟩
  rintro ⟨out, h, _⟩
  cases h

/-- C10 amended: when both requests of `finalizeChapter` succeed, the returned
`globalSummary` is `project.globalSummary` if the sanitized summary is empty
and the sanitized summary otherwise, and likewise for `characterState`; when a
request fails, the call fails with the error of that request and returns no
fields (after one request if the first failed, after two otherwise). -/
theorem finalizeChapter_outcome (prompts : UtilityPrompts) (client : Completion)
    (project : Project) (chapterText : Text) :
    (∀ r1 r2, client 0 (prompts.summary chapterText project.globalSummary) = .ok r1 →
        client 1 (prompts.updateCharacterState chapterText project.characterState) = .ok r2 →
        ∃ out, (finalizeChapter prompts client project chapterText).result = .ok out ∧
          (cleanResponse r1 = [] → out.globalSummary = project.globalSummary) ∧
          (cleanResponse r1 ≠ [] → out.globalSummary = cleanResponse r1) ∧
          (cleanResponse r2 = [] → out.characterState = project.characterState) ∧
          (cleanResponse r2 ≠ [] → out.characterState = cleanResponse r2)) ∧
      (∀ e, client 0 (prompts.summary chapterText project.globalSummary) = .error e →
        (finalizeChapter prompts client project chapterText).result = .error e ∧
          (finalizeChapter prompts client project chapterText).requests.length = 1) ∧
      (∀ r1 e, client 0 (prompts.summary chapterText project.globalSummary) = .ok r1 →
        client 1 (prompts.updateCharacterState chapterText project.characterState) = .error e →
        (finalizeChapter prompts client project chapterText).result = .error e ∧
          (finalizeChapter prompts client project chapterText).requests.length = 2) := by
  have horElse : ∀ a b : Text, (a = [] → orElse a b = b) ∧ (a ≠ [] → orElse a b = a) := by
    intro a b
    cases a with
    | nil => simp [orElse]
    | cons x l => simp [orElse]
  refine ⟨?_, ?_, ?_⟩
  · intro r1 r2 h1 h2
    refine ⟨⟨orElse (cleanResponse r1) project.globalSummary,
      orElse (cleanResponse r2) project.characterState⟩,
      by simp only [finalizeChapter, h1, h2], ?_, ?_, ?_, ?_⟩
    · exact (horElse _ _).1
    · exact (horElse _ _).2
    · exact (horElse _ _).1
    · exact (horElse _ _).2
  · intro e h1
    simp [finalizeChapter, h1]
  · intro r1 e h1 h2
    simp [finalizeChapter, h1, h2]

/-- Witness of `finalizeChapter_outcome`: an empty summary response keeps the
old summary, a non-empty state response replaces the old state. -/
theorem finalizeChapter_outcome_witness :
    ∃ out, (finalizeChapter blankUtilityPrompts
        (fun i _ => if i = 0 then .ok [] else .ok "新状态".toList)
        (sampleProject 3 []) "正文".toList).result = .ok out ∧
      out.globalSummary = "旧摘要".toList ∧ out.characterState = "新状态".toList := by
  obtain ⟨out, h, h1, _, _, h4⟩ :=
    (finalizeChapter_outcome blankUtilityPrompts
      (fun i _ => if i = 0 then .ok [] else .ok "新状态".toList)
      (sampleProject 3 []) "正文".toList).1 [] "新状态".toList rfl rfl
  exact ⟨out, h, h1 (by decide), (h4 (by decide)).trans (by decide)⟩

/-! ## Chapter drafts -/

/-- C6: `generateChapterDraft` fails with `ChapterNotFound` if and only if the
parsed blueprint has no entry with the requested number, and in that case it
issues no completion request. -/
theorem generateChapterDraft_chapterNotFound_iff (prompts : ChapterPrompts)
    (client : Completion) (project : Project) (n : Nat) :
    ((generateChapterDraft prompts client project n).result = .error (.chapterNotFound n) ↔
      ∀ e ∈ parseChapterBlueprint project.chapterBlueprint, e.number ≠ n) ∧
      ((∀ e ∈ parseChapterBlueprint project.chapterBlueprint, e.number ≠ n) →
        (generateChapterDraft prompts client project n).requests = []) := by
  cases hfind : (parseChapterBlueprint project.chapterBlueprint).find?
      (fun c => c.number == n) with
  | none =>
    have hall : ∀ e ∈ parseChapterBlueprint project.chapterBlueprint, e.number ≠ n := by
      intro e he
      have := List.find?_eq_none.mp hfind e he
      simpa using this
    have hrun : generateChapterDraft prompts client project n
        = ⟨[], .error (.chapterNotFound n)⟩ := by
      simp only [generateChapterDraft, hfind]
    rw [hrun]
    exact ⟨⟨fun _ => hall, fun _ => rfl⟩, fun _ => rfl⟩
  | some info =>
    have hmem := List.mem_of_find?_eq_some hfind
    have hnum : info.number = n := by
      have := List.find?_some hfind
      simpa using this
    have hnot : ¬ ∀ e ∈ parseChapterBlueprint project.chapterBlueprint, e.number ≠ n :=
      fun h => h info hmem hnum
    have hres : (generateChapterDraft prompts client project n).result
        ≠ .error (.chapterNotFound n) := by
      simp only [generateChapterDraft, hfind]
      cases client 0 _ <;> simp
    exact ⟨⟨fun h => absurd h hres, fun h => absurd h hnot⟩, fun h => absurd h hnot⟩

/-- Witness of `generateChapterDraft_chapterNotFound_iff`: the blueprint holds
the entries 1 and 2 only, and a draft of chapter 3 fails with `ChapterNotFound`
without a request. -/
theorem generateChapterDraft_chapterNotFound_witness :
    (parseChapterBlueprint "第1章 - 开端\n本章定位：起\n第2章 - 转折\n本章定位：承\n".toList).map
        (fun e => e.number) = [1, 2] ∧
      (generateChapterDraft blankChapterPrompts (constantClient "正文".toList)
        (sampleProject 3 "第1章 - 开端\n本章定位：起\n第2章 - 转折\n本章定位：承\n".toList) 3).result
        = .error (.chapterNotFound 3) ∧
      (generateChapterDraft blankChapterPrompts (constantClient "正文".toList)
        (sampleProject 3 "第1章 - 开端\n本章定位：起\n第2章 - 转折\n本章定位：承\n".toList) 3).requests
        = [] := by
  have hall : ∀ e ∈ parseChapterBlueprint
      (sampleProject 3 "第1章 - 开端\n本章定位：起\n第2章 - 转折\n本章定位：承\n".toList).chapterBlueprint,
      e.number ≠ 3 := by
    decide
  have h := generateChapterDraft_chapterNotFound_iff blankChapterPrompts
    (constantClient "正文".toList)
    (sampleProject 3 "第1章 - 开端\n本章定位：起\n第2章 - 转折\n本章定位：承\n".toList) 3
  exact ⟨by decide, h.1.mpr hall, h.2 hall⟩

/-! ## Blueprint generation -/

/-- The fold that computes the largest number is above its start value and
above every element. -/
theorem le_foldl_max (l : List Nat) (a : Nat) :
    a ≤ l.foldl max a ∧ ∀ x ∈ l, x ≤ l.foldl max a := by
  induction l generalizing a with
  | nil => simp
  | cons y l ih =>
    simp only [List.foldl_cons, List.mem_cons]
    obtain ⟨h1, h2⟩ := ih (max a y)
    refine ⟨le_trans (le_max_left a y) h1, ?_⟩
    rintro x (rfl | hx)
    · exact le_trans (le_max_right a x) h1
    · exact h2 x hx

/-- The fold that computes the largest number yields its start value or an
element. -/
theorem foldl_max_eq_or_mem (l : List Nat) (a : Nat) :
    l.foldl max a = a ∨ l.foldl max a ∈ l := by
  induction l generalizing a with
  | nil => simp
  | cons y l ih =>
    simp only [List.foldl_cons, List.mem_cons]
    rcases ih (max a y) with h | h
    · rcases max_choice a y with hm | hm
      · left; rw [h, hm]
      · right; left; rw [h, hm]
    · right; right; exact h

/-- When the numbers found in the blueprint are exactly `1..k`, the largest
existing chapter is `k`. -/
theorem maxExistingChapter_eq (blueprint : Text) (k : Nat)
    (hk : ∀ m, m ∈ existingChapterNumbers blueprint ↔ 1 ≤ m ∧ m ≤ k) :
    maxExistingChapter blueprint = k := by
  unfold maxExistingChapter
  obtain ⟨_, hge⟩ := le_foldl_max (existingChapterNumbers blueprint) 0
  rcases foldl_max_eq_or_mem (existingChapterNumbers blueprint) 0 with h | h
  · rcases Nat.eq_zero_or_pos k with hk0 | hkpos
    · rw [h, hk0]
    · have := hge k ((hk k).mpr ⟨hkpos, le_refl k⟩)
      omega
  · have hle := ((hk _).mp h).2
    rcases Nat.eq_zero_or_pos k with hk0 | hkpos
    · omega
    · have := hge k ((hk k).mpr ⟨hkpos, le_refl k⟩)
      omega

/-- The blueprint before a chunk is a prefix of the blueprint after it. -/
theorem prefix_appendChunk (blueprint chunkResult : Text) :
    blueprint <+: appendChunk blueprint chunkResult := by
  unfold appendChunk
  split
  · exact List.prefix_refl _
  · split
    · rename_i h
      have h0 : blueprint = [] := List.isEmpty_iff.mp h
      subst h0
      exact List.nil_prefix
    · rw [List.append_assoc]
      exact List.prefix_append _ _

/-- The chunk loop with a chunk size of at least one and enough fuel: the
requests it adds are chunk requests that start at `currentStart` or later and
end at `numberOfChapters` or earlier, the first of them (if the loop is
entered) starts at `currentStart`, the loop finishes, a returned blueprint
extends the one the loop started with, and the loop returns a blueprint when
the client never fails. -/
theorem chunkLoop_spec (prompts : ChapterPrompts) (client : Completion) (project : Project)
    (size : Nat) (hsize : 1 ≤ size) :
    ∀ (fuel currentStart : Nat) (blueprint : Text) (log : List BlueprintRequest),
      project.numberOfChapters + 1 - currentStart < fuel →
      (∃ added,
        (chunkLoop prompts client project size fuel currentStart blueprint log).requests
          = log ++ added ∧
        (∀ req ∈ added, ∃ params prompt, req = .chunk params prompt ∧
          currentStart ≤ params.startChapter ∧
          params.endChapter ≤ project.numberOfChapters) ∧
        (currentStart ≤ project.numberOfChapters → ∃ params prompt rest,
          added = .chunk params prompt :: rest ∧ params.startChapter = currentStart)) ∧
      (chunkLoop prompts client project size fuel currentStart blueprint log).result ≠ none ∧
      (∀ out, (chunkLoop prompts client project size fuel currentStart blueprint log).result
          = some (.ok out) → blueprint <+: out) ∧
      ((∀ i p, ∃ r, client i p = .ok r) → ∃ out,
        (chunkLoop prompts client project size fuel currentStart blueprint log).result
          = some (.ok out)) := by
  intro fuel
  induction fuel with
  | zero => intro currentStart blueprint log h; omega
  | succ fuel ih =>
    intro currentStart blueprint log hfuel
    rw [chunkLoop]
    by_cases hle : currentStart ≤ project.numberOfChapters
    · rw [if_pos hle]
      dsimp only
      have hstart : (chunkParamsOf project size currentStart blueprint).startChapter
          = currentStart := rfl
      have hendle : (chunkParamsOf project size currentStart blueprint).endChapter
          ≤ project.numberOfChapters := Nat.min_le_right _ _
      have hend : currentStart
          ≤ (chunkParamsOf project size currentStart blueprint).endChapter := by
        show currentStart ≤ min (currentStart + size - 1) project.numberOfChapters
        omega
      cases hc : client log.length
          (prompts.blueprintChunked (chunkParamsOf project size currentStart blueprint)) with
      | error e =>
        dsimp only
        refine ⟨⟨[chunkRequestOf prompts project size currentStart blueprint], rfl, ?_, ?_⟩,
          by simp, by simp, ?_⟩
        · intro req hreq
          rw [List.mem_singleton] at hreq
          exact ⟨_, _, hreq, le_of_eq hstart.symm, hendle⟩
        · intro _
          exact ⟨_, _, [], rfl, hstart⟩
        · intro htotal
          obtain ⟨r, hr⟩ := htotal log.length
            (prompts.blueprintChunked (chunkParamsOf project size currentStart blueprint))
          rw [hr] at hc
          cases hc
      | ok response =>
        dsimp only
        obtain ⟨⟨added, hreq, hall, _⟩, hres, hpre, htot⟩ :=
          ih ((chunkParamsOf project size currentStart blueprint).endChapter + 1)
            (appendChunk blueprint (cleanResponse response))
            (log ++ [chunkRequestOf prompts project size currentStart blueprint]) (by omega)
        refine ⟨⟨chunkRequestOf prompts project size currentStart blueprint :: added,
          ?_, ?_, ?_⟩, hres, ?_, htot⟩
        · rw [hreq, List.append_assoc]
          rfl
        · intro req hmem
          rcases List.mem_cons.mp hmem with h | h
          · exact ⟨_, _, h, le_of_eq hstart.symm, hendle⟩
          · obtain ⟨params, prompt, h1, h2, h3⟩ := hall req h
            exact ⟨params, prompt, h1, by omega, h3⟩
        · intro _
          exact ⟨_, _, added, rfl, hstart⟩
        · intro out hout
          exact (prefix_appendChunk _ _).trans (hpre out hout)
    · rw [if_neg hle]
      refine ⟨⟨[], by simp, by simp, fun h => absurd h hle⟩, by simp, ?_, ?_⟩
      · intro out hout
        simp only [Option.some.injEq, Except.ok.injEq] at hout
        rw [hout]
      · intro _
        exact ⟨_, rfl⟩

/-- Resumption in terms of the marker scan of the code: when the numbers
matched by `第\s*(\d+)\s*章` anywhere in a non-empty blueprint (mentions inside
field lines included) are exactly `1..k` with `k < numberOfChapters`, a run of
`generateChapterBlueprint` issues chunk requests only, the first of them with
`startChapter = k + 1`, all of them with `startChapter ≥ k + 1` and
`endChapter ≤ numberOfChapters`; the chunk loop finishes, every blueprint it
returns has the existing blueprint as a prefix, and it returns one whenever
the client does not fail. -/
theorem generateChapterBlueprint_resumes (quotient : FlooredQuotient)
    (prompts : ChapterPrompts) (client : Completion) (project : Project) (maxTokens k : Nat)
    (hne : project.chapterBlueprint ≠ [])
    (hk : ∀ m, m ∈ existingChapterNumbers project.chapterBlueprint ↔ 1 ≤ m ∧ m ≤ k)
    (hlt : k < project.numberOfChapters) :
    (∃ params prompt rest,
        (generateChapterBlueprint quotient prompts client project maxTokens).requests
          = .chunk params prompt :: rest ∧ params.startChapter = k + 1) ∧
      (∀ req ∈ (generateChapterBlueprint quotient prompts client project maxTokens).requests,
        ∃ params prompt, req = .chunk params prompt ∧ k + 1 ≤ params.startChapter ∧
          params.endChapter ≤ project.numberOfChapters) ∧
      (generateChapterBlueprint quotient prompts client project maxTokens).result ≠ none ∧
      (∀ out, (generateChapterBlueprint quotient prompts client project maxTokens).result
          = some (.ok out) → project.chapterBlueprint <+: out) ∧
      ((∀ i p, ∃ r, client i p = .ok r) → ∃ out,
        (generateChapterBlueprint quotient prompts client project maxTokens).result = some (.ok out) ∧
          project.chapterBlueprint <+: out) := by
  have hempty : project.chapterBlueprint.isEmpty = false := by
    cases hb : project.chapterBlueprint with
    | nil => exact absurd hb hne
    | cons a l => rfl
  have hrun : generateChapterBlueprint quotient prompts client project maxTokens
      = chunkLoop prompts client project (chunkSize quotient maxTokens project.numberOfChapters)
          (project.numberOfChapters + 1) (k + 1) project.chapterBlueprint [] := by
    simp only [generateChapterBlueprint, hempty, maxExistingChapter_eq _ k hk]
    simp
  have hsize : 1 ≤ chunkSize quotient maxTokens project.numberOfChapters :=
    le_trans (by decide) (clampChunkSize_range _ _).1
  obtain ⟨⟨added, hreq, hall, hfirst⟩, hres, hpre, htot⟩ :=
    chunkLoop_spec prompts client project _ hsize (project.numberOfChapters + 1) (k + 1)
      project.chapterBlueprint [] (by omega)
  rw [hrun]
  rw [List.nil_append] at hreq
  refine ⟨?_, ?_, hres, hpre, ?_⟩
  · obtain ⟨params, prompt, rest, h1, h2⟩ := hfirst (by omega)
    exact ⟨params, prompt, rest, by rw [hreq, h1], h2⟩
  · intro req hmem
    rw [hreq] at hmem
    exact hall req hmem
  · intro htotal
    obtain ⟨out, hout⟩ := htot htotal
    exact ⟨out, hout, hpre out hout⟩

/-- Witness of `generateChapterBlueprint_resumes`: the blueprint holds the
chapters 1 and 2 of 5, the client answers every request with the same text;
the first request starts at chapter 3 and the old blueprint is kept in front. -/
theorem generateChapterBlueprint_resumes_witness :
    (∃ params prompt rest,
        (generateChapterBlueprint exactQuotient blankChapterPrompts (constantClient "第3章 - 续".toList)
          (sampleProject 5 "第1章 - 开端\n第2章 - 转折".toList) 8192).requests
          = .chunk params prompt :: rest ∧ params.startChapter = 2 + 1) ∧
      ∃ out,
        (generateChapterBlueprint exactQuotient blankChapterPrompts (constantClient "第3章 - 续".toList)
          (sampleProject 5 "第1章 - 开端\n第2章 - 转折".toList) 8192).result = some (.ok out) ∧
          "第1章 - 开端\n第2章 - 转折".toList <+: out := by
  have hnums : existingChapterNumbers
      (sampleProject 5 "第1章 - 开端\n第2章 - 转折".toList).chapterBlueprint = [1, 2] := by
    decide
  have h := generateChapterBlueprint_resumes exactQuotient blankChapterPrompts
    (constantClient "第3章 - 续".toList)
    (sampleProject 5 "第1章 - 开端\n第2章 - 转折".toList) 8192 2 (by decide)
    (by
      intro m
      rw [hnums]
      simp only [List.mem_cons, List.mem_singleton, List.not_mem_nil, or_false]
      omega)
    (by decide)
  exact ⟨h.1, h.2.2.2.2 (fun _ _ => ⟨_, rfl⟩)⟩

/-- C5 at the failing input: the blueprint holds the headings of the chapters
1 and 2 only, and a field line of chapter 1 mentions `第10章`.  The scan for
existing chapters counts the mention, so of 12 chapters the only request is
for 11..12: generation resumes at chapter 11, not at chapter 3, and the
chapters 3..10 are never requested. -/
theorem generateChapterBlueprint_resumes_behind_mention :
    (parseChapterBlueprint
        "第1章 - 开端\n伏笔操作：为第10章埋下伏笔\n第2章 - 转折\n本章定位：承接第1章结尾\n".toList).map
        (fun e => e.number) = [1, 2] ∧
      existingChapterNumbers
        "第1章 - 开端\n伏笔操作：为第10章埋下伏笔\n第2章 - 转折\n本章定位：承接第1章结尾\n".toList
        = [1, 10, 2, 1] ∧
      ((generateChapterBlueprint exactQuotient blankChapterPrompts
          (constantClient "第11章 - 续".toList)
          (sampleProject 12
            "第1章 - 开端\n伏笔操作：为第10章埋下伏笔\n第2章 - 转折\n本章定位：承接第1章结尾\n".toList)
          2500).requests.map BlueprintRequest.range) = [(11, 12)] := by
  decide

/-! ## Blueprint parser -/

/-- The decimal digit characters have the value of their digit and are in the
digit class. -/
theorem digitChar_spec (d : Nat) (h : d < 10) :
    (Nat.digitChar d).toNat - 48 = d ∧ isDigit (Nat.digitChar d) = true := by
  interval_cases d <;> decide

/-- Reading a digit string that ends in `c` is ten times the front plus `c`. -/
theorem parseInt_append_singleton (ds : Text) (c : Char) :
    parseInt (ds ++ [c]) = 10 * parseInt ds + (c.toNat - 48) := by
  simp [parseInt, List.foldl_append]

/-- The accumulator of the digit renderer is appended to. -/
theorem toDigitsCore_append (fuel n : Nat) (ds : List Char) :
    Nat.toDigitsCore 10 fuel n ds = Nat.toDigitsCore 10 fuel n [] ++ ds := by
  induction fuel generalizing n ds with
  | zero => simp [Nat.toDigitsCore]
  | succ fuel ih =>
    simp only [Nat.toDigitsCore]
    split
    · simp
    · rw [ih (n / 10) (Nat.digitChar (n % 10) :: ds), ih (n / 10) [Nat.digitChar (n % 10)]]
      simp

/-- The digit renderer with enough fuel yields a non-empty run of digits that
reads back as the number. -/
theorem toDigitsCore_spec (fuel n : Nat) (h : n < fuel) :
    parseInt (Nat.toDigitsCore 10 fuel n []) = n ∧
      (∀ c ∈ Nat.toDigitsCore 10 fuel n [], isDigit c = true) ∧
      Nat.toDigitsCore 10 fuel n [] ≠ [] := by
  induction fuel generalizing n with
  | zero => omega
  | succ fuel ih =>
    simp only [Nat.toDigitsCore]
    have hd := digitChar_spec (n % 10) (Nat.mod_lt n (by decide))
    split
    · rename_i h0
      refine ⟨?_, ?_, by simp⟩
      · have : parseInt [Nat.digitChar (n % 10)] = (Nat.digitChar (n % 10)).toNat - 48 := by
          simp [parseInt]
        rw [this, hd.1]
        omega
      · intro c hc
        rw [List.mem_singleton] at hc
        rw [hc]
        exact hd.2
    · rename_i h0
      rw [toDigitsCore_append]
      obtain ⟨h1, h2, _⟩ := ih (n / 10) (by omega)
      refine ⟨?_, ?_, by simp⟩
      · rw [parseInt_append_singleton, h1, hd.1]
        omega
      · intro c hc
        rcases List.mem_append.mp hc with hc | hc
        · exact h2 c hc
        · rw [List.mem_singleton] at hc
          rw [hc]
          exact hd.2

/-- The decimal rendering of a number is a non-empty run of digits that
`parseInt` reads back. -/
theorem decimal_spec (n : Nat) :
    parseInt (decimal n) = n ∧ (∀ c ∈ decimal n, isDigit c = true) ∧ decimal n ≠ [] :=
  toDigitsCore_spec (n + 1) n (by omega)

/-- A run of elements that pass the test is dropped up to the first element
that fails it. -/
theorem dropWhile_append_of_all {α : Type} (p : α → Bool) (gap rest : List α)
    (hgap : ∀ c ∈ gap, p c = true) (hrest : ∀ c r, rest = c :: r → p c = false) :
    (gap ++ rest).dropWhile p = rest := by
  induction gap with
  | nil => exact dropWhile_eq_self_of_head p rest hrest
  | cons a gap ih =>
    have ha : p a = true := hgap a (by simp)
    simp only [List.cons_append, List.dropWhile_cons, ha, if_true]
    exact ih (fun c hc => hgap c (List.mem_cons_of_mem _ hc))

/-- A run of elements that pass the test is taken up to the first element
that fails it. -/
theorem takeWhile_append_of_all {α : Type} (p : α → Bool) (run rest : List α)
    (hrun : ∀ c ∈ run, p c = true) (hrest : ∀ c r, rest = c :: r → p c = false) :
    (run ++ rest).takeWhile p = run := by
  induction run with
  | nil =>
    cases rest with
    | nil => rfl
    | cons c r => simp [List.takeWhile, hrest c r rfl]
  | cons a run ih =>
    have ha : p a = true := hrun a (by simp)
    simp only [List.cons_append, List.takeWhile_cons, ha, if_true]
    rw [ih (fun c hc => hrun c (List.mem_cons_of_mem _ hc))]

/-- Whitespace is not a digit. -/
theorem isDigit_of_isWhitespace (c : Char) (h : isWhitespace c = true) : isDigit c = false := by
  simp only [isWhitespace, Bool.or_eq_true, Bool.and_eq_true, beq_iff_eq,
    decide_eq_true_eq] at h
  simp only [isDigit, Bool.and_eq_false_iff, decide_eq_false_iff_not]
  omega

/-- A digit is not whitespace. -/
theorem isWhitespace_of_isDigit (c : Char) (h : isDigit c = true) : isWhitespace c = false := by
  cases hw : isWhitespace c with
  | false => rfl
  | true => rw [isDigit_of_isWhitespace c hw] at h; cases h

/-- A separator is not whitespace. -/
theorem isWhitespace_of_isSeparator (c : Char) (h : isSeparator c = true) :
    isWhitespace c = false := by
  simp only [isSeparator, Bool.or_eq_true, beq_iff_eq] at h
  rcases h with ((((h | h) | h) | h) | h) | h <;> subst h <;> decide

/-- The marker pattern matches a rendered marker and captures its digits. -/
theorem chapterMarker_rendered (gap1 ds gap2 rest : Text)
    (h1 : ∀ c ∈ gap1, isWhitespace c = true) (hds : ∀ c ∈ ds, isDigit c = true)
    (hne : ds ≠ []) (h2 : ∀ c ∈ gap2, isWhitespace c = true) :
    chapterMarker (markerOpen :: (gap1 ++ (ds ++ (gap2 ++ markerClose :: rest))))
      = some (ds, rest) := by
  have hheadDigits : ∀ c r, ds ++ (gap2 ++ markerClose :: rest) = c :: r →
      isWhitespace c = false := by
    intro c r hcr
    cases ds with
    | nil => exact absurd rfl hne
    | cons d ds' =>
      simp only [List.cons_append, List.cons.injEq] at hcr
      exact isWhitespace_of_isDigit c (hds c (by simp [hcr.1]))
  have hheadClose : ∀ c r, markerClose :: rest = c :: r → isWhitespace c = false := by
    intro c r hcr
    simp only [List.cons.injEq] at hcr
    rw [← hcr.1]
    decide
  have hheadGap : ∀ c r, gap2 ++ markerClose :: rest = c :: r → isDigit c = false := by
    intro c r hcr
    cases gap2 with
    | nil =>
      simp only [List.nil_append, List.cons.injEq] at hcr
      rw [← hcr.1]
      decide
    | cons g gap2' =>
      simp only [List.cons_append, List.cons.injEq] at hcr
      exact isDigit_of_isWhitespace c (h2 c (by simp [hcr.1]))
  have hempty : ds.isEmpty = false := by
    cases ds with
    | nil => exact absurd rfl hne
    | cons d ds' => rfl
  simp only [chapterMarker, if_true]
  rw [dropWhile_append_of_all isWhitespace gap1 _ h1 hheadDigits,
    takeWhile_append_of_all isDigit ds _ hds hheadGap,
    dropWhile_append_of_all isDigit ds _ hds hheadGap,
    dropWhile_append_of_all isWhitespace gap2 _ h2 hheadClose]
  simp [hempty]

/-- A character that `.` matches is not the line feed. -/
theorem ne_lineFeed_of_not_lineTerminator (c : Char) (h : isLineTerminator c = false) :
    c ≠ lineFeed := by
  intro hc
  rw [hc] at h
  exact absurd h (by decide)

/-- At the end of a line the tail of the heading pattern matches without
consuming anything. -/
theorem titleEnd_of_atLineEnd (suffix : Text) (h : atLineEnd suffix = true) :
    titleEnd suffix = some 0 := by
  cases suffix with
  | nil => rfl
  | cons c r =>
    have hc : c = lineFeed := by simpa [atLineEnd] using h
    subst hc
    have hnb : lineFeed ≠ bracketClose := by decide
    simp [titleEnd, hnb]

/-- A closing bracket at the end of a line is consumed by the tail. -/
theorem titleEnd_bracket (suffix : Text) (h : atLineEnd suffix = true) :
    titleEnd (bracketClose :: suffix) = some 1 := by
  simp [titleEnd, h]

/-- Inside the line the tail of the heading pattern does not match. -/
theorem titleEnd_inside (c : Char) (rest : Text) (hc : isLineTerminator c = false)
    (hrest : c = bracketClose → atLineEnd rest = false) : titleEnd (c :: rest) = none := by
  simp only [titleEnd]
  by_cases hb : c = bracketClose
  · rw [if_pos hb, hrest hb]
    rfl
  · rw [if_neg hb, if_neg (ne_lineFeed_of_not_lineTerminator c hc)]

/-- A text that starts with a character of the line is not at a line end. -/
theorem atLineEnd_cons (c : Char) (rest : Text) (hc : isLineTerminator c = false) :
    atLineEnd (c :: rest) = false := by
  simp [atLineEnd, ne_lineFeed_of_not_lineTerminator c hc]

/-- One step of the lazy title group when the tail matches right away. -/
theorem lazyTitle_cons_end (c : Char) (cs : Text) (j : Nat)
    (hc : isLineTerminator c = false) (hj : titleEnd cs = some j) :
    lazyTitle (c :: cs) = some ([c], 1 + j) := by
  rw [lazyTitle]
  simp [hc, hj]

/-- One step of the lazy title group when the tail does not match yet. -/
theorem lazyTitle_cons_more (c : Char) (cs t : Text) (n : Nat)
    (hc : isLineTerminator c = false) (hj : titleEnd cs = none)
    (hr : lazyTitle cs = some (t, n)) : lazyTitle (c :: cs) = some (c :: t, n + 1) := by
  rw [lazyTitle]
  simp [hc, hj, hr]

/-- The lazy title group captures a one-line title that runs to the end of
the line. -/
theorem lazyTitle_plain (t suffix : Text) (hne : t ≠ [])
    (hlt : ∀ c ∈ t, isLineTerminator c = false) (hlast : t.getLast? ≠ some bracketClose)
    (hsuf : atLineEnd suffix = true) : lazyTitle (t ++ suffix) = some (t, t.length) := by
  induction t with
  | nil => exact absurd rfl hne
  | cons c t ih =>
    have hc : isLineTerminator c = false := hlt c (by simp)
    cases t with
    | nil =>
      exact lazyTitle_cons_end c suffix 0 hc (titleEnd_of_atLineEnd suffix hsuf)
    | cons d t =>
      have hd : isLineTerminator d = false := hlt d (by simp)
      have hinside : titleEnd (d :: (t ++ suffix)) = none := by
        apply titleEnd_inside d _ hd
        intro hdb
        cases t with
        | nil =>
          exfalso
          apply hlast
          simp [hdb]
        | cons e t =>
          exact atLineEnd_cons e _ (hlt e (by simp))
      have hrec := ih (by simp) (fun x hx => hlt x (List.mem_cons_of_mem _ hx))
        (by simpa using hlast)
      exact lazyTitle_cons_more c _ (d :: t) (d :: t).length hc hinside hrec

/-- The lazy title group captures a one-line title up to its closing bracket
at the end of the line, and the tail consumes the bracket. -/
theorem lazyTitle_closed (t suffix : Text) (hne : t ≠ [])
    (hlt : ∀ c ∈ t, isLineTerminator c = false) (hsuf : atLineEnd suffix = true) :
    lazyTitle (t ++ bracketClose :: suffix) = some (t, t.length + 1) := by
  induction t with
  | nil => exact absurd rfl hne
  | cons c t ih =>
    have hc : isLineTerminator c = false := hlt c (by simp)
    cases t with
    | nil =>
      have := lazyTitle_cons_end c (bracketClose :: suffix) 1 hc (titleEnd_bracket suffix hsuf)
      simpa [Nat.add_comm] using this
    | cons d t =>
      have hd : isLineTerminator d = false := hlt d (by simp)
      have hinside : titleEnd (d :: (t ++ bracketClose :: suffix)) = none := by
        apply titleEnd_inside d _ hd
        intro _
        cases t with
        | nil => exact atLineEnd_cons bracketClose _ (by decide)
        | cons e t => exact atLineEnd_cons e _ (hlt e (by simp))
      have hrec := ih (by simp) (fun x hx => hlt x (List.mem_cons_of_mem _ hx))
      exact lazyTitle_cons_more c _ (d :: t) ((d :: t).length + 1) hc hinside hrec

/-- What a plain title provides. -/
theorem plainTitle_spec (t : Text) (h : plainTitle t = true) :
    t ≠ [] ∧ (∀ c ∈ t, isLineTerminator c = false) ∧
      (∀ a r, t = a :: r → isWhitespace a = false ∧ a ≠ bracketOpen) ∧
      (∀ z, t.getLast? = some z → isWhitespace z = false ∧ z ≠ bracketClose) := by
  simp only [plainTitle, Bool.and_eq_true, List.all_eq_true, Bool.not_eq_true'] at h
  obtain ⟨⟨hall, hhead⟩, hlast⟩ := h
  refine ⟨?_, hall, ?_, ?_⟩
  · intro h0
    rw [h0] at hhead
    simp at hhead
  · intro a r har
    rw [har] at hhead
    simpa using hhead
  · intro z hz
    rw [hz] at hlast
    simpa using hlast

/-- The greedy whitespace in front of the title consumes the whole gap when the
title part starts with a character that is not whitespace. -/
theorem wsThenTitle_gap (gap rest t : Text) (n : Nat) (x : Char) (xs : Text)
    (hgap : ∀ c ∈ gap, isWhitespace c = true) (hrest : rest = x :: xs)
    (hx : isWhitespace x = false) (hb : bracketedTitle rest = some (t, n)) :
    wsThenTitle (gap ++ rest) = some (t, n + gap.length) := by
  induction gap with
  | nil =>
    subst hrest
    rw [List.nil_append, wsThenTitle]
    simp [hx, hb]
  | cons a gap ih =>
    have ha : isWhitespace a = true := hgap a (by simp)
    have hrec := ih (fun c hc => hgap c (List.mem_cons_of_mem _ hc))
    rw [List.cons_append, wsThenTitle]
    simp [ha, hrec, Nat.add_assoc]

/-- The title part of a well-formed heading at the end of its line is matched
by the optional bracket and the lazy title group, which capture the title. -/
theorem bracketedTitle_titlePart (c : ChapterLayout) (suffix : Text)
    (ht : plainTitle c.title = true) (hsuf : atLineEnd suffix = true) :
    bracketedTitle (c.titlePart ++ suffix) = some (c.title, c.titlePart.length) ∧
      ∃ x xs, c.titlePart ++ suffix = x :: xs ∧ isWhitespace x = false := by
  obtain ⟨hne, hlt, hhead, hlast⟩ := plainTitle_spec c.title ht
  cases hb : c.bracketed with
  | true =>
    have hpart : c.titlePart ++ suffix = bracketOpen :: (c.title ++ bracketClose :: suffix) := by
      simp [ChapterLayout.titlePart, hb]
    have hlen : c.titlePart.length = c.title.length + 1 + 1 := by
      simp [ChapterLayout.titlePart, hb]
    refine ⟨?_, bracketOpen, _, hpart, by decide⟩
    rw [hpart, hlen, bracketedTitle]
    simp [lazyTitle_closed c.title suffix hne hlt hsuf]
  | false =>
    have hpart : c.titlePart = c.title := by simp [ChapterLayout.titlePart, hb]
    rw [hpart]
    cases htitle : c.title with
    | nil => exact absurd htitle hne
    | cons a r =>
      obtain ⟨hws, hnb⟩ := hhead a r htitle
      refine ⟨?_, a, r ++ suffix, rfl, hws⟩
      have hplain := lazyTitle_plain c.title suffix hne hlt
        (by
          intro hl
          exact (hlast _ hl).2 rfl)
        hsuf
      rw [htitle] at hplain
      rw [List.cons_append, bracketedTitle]
      simp only [hnb, if_false]
      exact hplain

/-- Assembling a heading match from the matches of its parts. -/
theorem headingAt_of_parts (s ds r r2 t : Text) (sep : Char) (n : Nat)
    (hm : chapterMarker s = some (ds, r)) (hd : r.dropWhile isWhitespace = sep :: r2)
    (hsep : isSeparator sep = true) (ht : wsThenTitle r2 = some (t, n)) :
    headingAt s = some ⟨ds, t, (s.length - r2.length) + n⟩ := by
  simp [headingAt, hm, hd, hsep, ht]

/-- The heading pattern matches a well-formed heading at the end of its line:
it captures the digits of the number and the title, and it spans the whole
heading. -/
theorem headingAt_rendered (c : ChapterLayout) (suffix : Text)
    (hwf : wellFormedHeading c = true) (hsuf : atLineEnd suffix = true) :
    headingAt (c.heading ++ suffix) = some ⟨decimal c.number, c.title, c.heading.length⟩ := by
  simp only [wellFormedHeading, Bool.and_eq_true, List.all_eq_true] at hwf
  obtain ⟨⟨⟨⟨⟨h1, h2⟩, h3⟩, h4⟩, hsep⟩, ht⟩ := hwf
  obtain ⟨hds1, hds2, hds3⟩ := decimal_spec c.number
  obtain ⟨hbt, x, xs, hx, hxws⟩ := bracketedTitle_titlePart c suffix ht hsuf
  have hshape : c.heading ++ suffix = markerOpen :: (c.gap1 ++ (decimal c.number ++
      (c.gap2 ++ markerClose :: (c.gap3 ++ (c.separator ::
        (c.gap4 ++ (c.titlePart ++ suffix))))))) := by
    simp [ChapterLayout.heading, List.append_assoc]
  have hm := chapterMarker_rendered c.gap1 (decimal c.number) c.gap2
    (c.gap3 ++ (c.separator :: (c.gap4 ++ (c.titlePart ++ suffix)))) h1 hds2 hds3 h2
  have hd : (c.gap3 ++ (c.separator :: (c.gap4 ++ (c.titlePart ++ suffix)))).dropWhile
      isWhitespace = c.separator :: (c.gap4 ++ (c.titlePart ++ suffix)) := by
    apply dropWhile_append_of_all isWhitespace c.gap3 _ h3
    intro a r har
    simp only [List.cons.injEq] at har
    rw [← har.1]
    exact isWhitespace_of_isSeparator _ hsep
  have hws := wsThenTitle_gap c.gap4 (c.titlePart ++ suffix) c.title c.titlePart.length x xs
    h4 hx hxws hbt
  rw [hshape, headingAt_of_parts _ _ _ _ _ _ _ hm hd hsep hws]
  have hlen : c.heading.length = 1 + (c.gap1.length + ((decimal c.number).length +
      (c.gap2.length + (1 + (c.gap3.length + (1 + (c.gap4.length +
        c.titlePart.length))))))) := by
    simp [ChapterLayout.heading]
    omega
  have hsub : (markerOpen :: (c.gap1 ++ (decimal c.number ++ (c.gap2 ++ markerClose ::
      (c.gap3 ++ (c.separator :: (c.gap4 ++ (c.titlePart ++ suffix)))))))).length
      - (c.gap4 ++ (c.titlePart ++ suffix)).length + (c.titlePart.length + c.gap4.length)
      = c.heading.length := by
    rw [hlen]
    simp only [List.length_cons, List.length_append]
    omega
  rw [hsub]

/-- The title field of a match that captured a plain title is that title. -/
theorem stripBrackets_trim_plain (t : Text) (h : plainTitle t = true) :
    stripBrackets (trim t) = t := by
  obtain ⟨hne, _, hhead, hlast⟩ := plainTitle_spec t h
  have hdrop : t.dropWhile isWhitespace = t :=
    dropWhile_eq_self_of_head isWhitespace t (fun a r har => (hhead a r har).1)
  have hrdrop : t.rdropWhile isWhitespace = t := by
    rw [List.rdropWhile_eq_self_iff]
    intro hl
    have := (hlast (t.getLast hl) (List.getLast?_eq_getLast t hl)).1
    simp [this]
  have htrim : trim t = t := by
    unfold trim
    rw [hdrop, hrdrop]
  rw [htrim]
  cases ht : t with
  | nil => exact absurd ht hne
  | cons a r =>
    have hnb : a ≠ bracketOpen := (hhead a r ht).2
    have hnl : (a :: r).getLast? ≠ some bracketClose := by
      intro hl
      rw [← ht] at hl
      exact (hlast _ hl).2 rfl
    simp [stripBrackets, hnb, hnl]

/-- The scan passes over the rest of the previous match. -/
theorem headingMatchesFrom_skip (passed rest : Text) :
    ∀ pos, headingMatchesFrom passed.length pos (passed ++ rest)
      = headingMatchesFrom 0 (pos + passed.length) rest := by
  induction passed with
  | nil => intro pos; rfl
  | cons a passed ih =>
    intro pos
    rw [List.length_cons, List.cons_append, headingMatchesFrom, ih (pos + 1)]
    congr 1
    omega

/-- The scan finds nothing in a stretch in which no heading starts. -/
theorem headingMatchesFrom_noHeading (inner rest : Text)
    (h : noHeadingInside inner rest = true) :
    ∀ pos, headingMatchesFrom 0 pos (inner ++ rest)
      = headingMatchesFrom 0 (pos + inner.length) rest := by
  induction inner with
  | nil => intro pos; rfl
  | cons a inner ih =>
    intro pos
    simp only [noHeadingInside, List.tails, List.all_cons, Bool.and_eq_true,
      List.isEmpty_cons, Bool.false_or, Option.isNone_iff_eq_none] at h
    have hrec := ih (by simpa [noHeadingInside] using h.2) (pos + 1)
    rw [List.cons_append] at h ⊢
    rw [headingMatchesFrom, h.1]
    simp only
    rw [hrec, List.length_cons]
    congr 1
    omega

/-- No heading starts inside a stretch that does not contain the marker
opener. -/
theorem noHeadingInside_of_not_mem (inner rest : Text) (h : markerOpen ∉ inner) :
    noHeadingInside inner rest = true := by
  induction inner with
  | nil => simp [noHeadingInside]
  | cons a inner ih =>
    have ha : a ≠ markerOpen := fun hc => h (by simp [hc])
    have hrec := ih (fun hm => h (List.mem_cons_of_mem _ hm))
    have hat : headingAt (a :: (inner ++ rest)) = none := by
      simp [headingAt, chapterMarker, ha]
    simp only [noHeadingInside, List.tails, List.all_cons, Bool.and_eq_true,
      List.isEmpty_cons, Bool.false_or, Option.isNone_iff_eq_none, List.cons_append]
    exact ⟨hat, by simpa [noHeadingInside] using hrec⟩

/-- The scan at a heading records the match and resumes right behind it. -/
theorem headingMatchesFrom_heading (heading suffix : Text) (m : HeadingMatch) (pos : Nat)
    (hm : headingAt (heading ++ suffix) = some m) (hlen : m.length = heading.length)
    (hne : heading ≠ []) :
    headingMatchesFrom 0 pos (heading ++ suffix)
      = (pos, m) :: headingMatchesFrom 0 (pos + heading.length) suffix := by
  cases heading with
  | nil => exact absurd rfl hne
  | cons a heading =>
    rw [List.cons_append] at hm ⊢
    rw [headingMatchesFrom, hm]
    simp only
    rw [hlen, List.length_cons, Nat.add_sub_cancel, headingMatchesFrom_skip heading suffix]
    congr 2
    omega

/-- The scan of well-formed chapters yields one match per chapter, with the
number and the title of that chapter, and the chapters are numbered in order. -/
theorem headingMatchesFrom_rendered (chapters : List ChapterLayout) :
    ∀ first pos, wellFormedChapters first chapters = true →
      (headingMatchesFrom 0 pos (renderChapters chapters)).map keyOf
        = chapters.map (fun c => (c.number, c.title)) ∧
      chapters.map (fun c => c.number) = List.range' first chapters.length ∧
      ∀ c ∈ chapters, plainTitle c.title = true := by
  induction chapters with
  | nil => intro first pos _; simp [renderChapters, headingMatchesFrom]
  | cons c cs ih =>
    intro first pos hwf
    simp only [wellFormedChapters, Bool.and_eq_true, beq_iff_eq] at hwf
    obtain ⟨⟨⟨⟨hnum, hhead⟩, hbody⟩, hinside⟩, hrest⟩ := hwf
    have hsuf : atLineEnd (c.body ++ renderChapters cs) = true := by
      cases hb : c.body with
      | nil =>
        rw [hb] at hbody
        have hcs : cs = [] := by simpa [bodyStartsLine] using hbody
        subst hcs
        rfl
      | cons b body =>
        rw [hb] at hbody
        simpa [bodyStartsLine, atLineEnd] using hbody
    have hm := headingAt_rendered c (c.body ++ renderChapters cs) hhead hsuf
    have htitle : plainTitle c.title = true := by
      simp only [wellFormedHeading, Bool.and_eq_true] at hhead
      exact hhead.2
    obtain ⟨ih1, ih2, ih3⟩ := ih (first + 1) (pos + c.heading.length + c.body.length) hrest
    have hscan : headingMatchesFrom 0 pos (renderChapters (c :: cs))
        = (pos, ⟨decimal c.number, c.title, c.heading.length⟩) ::
          headingMatchesFrom 0 (pos + c.heading.length + c.body.length)
            (renderChapters cs) := by
      rw [renderChapters, headingMatchesFrom_heading c.heading _ _ pos hm rfl
        (by simp [ChapterLayout.heading]),
        headingMatchesFrom_noHeading c.body (renderChapters cs) hinside]
    refine ⟨?_, ?_, ?_⟩
    · rw [hscan, List.map_cons, List.map_cons, ih1]
      congr 1
      simp only [keyOf, titleOf, (decimal_spec c.number).1,
        stripBrackets_trim_plain c.title htitle]
    · rw [List.map_cons, List.length_cons, List.range'_succ, ih2, hnum]
    · intro x hx
      rcases List.mem_cons.mp hx with h | h
      · rw [h]; exact htitle
      · exact ih3 x h

/-- C7: for a blueprint text that contains exactly `N` well-formed chapter
headings numbered `1..N` in order, each followed by its body of field lines,
`parseChapterBlueprint` returns exactly `N` entries, their numbers are
`1, 2, ..., N` in that order, their titles are the titles of the headings, and
no title is empty. -/
theorem parseChapterBlueprint_wellFormed (preamble : Text) (chapters : List ChapterLayout)
    (h : wellFormedBlueprint preamble chapters = true) :
    (parseChapterBlueprint (renderBlueprint preamble chapters)).length = chapters.length ∧
      (parseChapterBlueprint (renderBlueprint preamble chapters)).map (fun e => e.number)
        = List.range' 1 chapters.length ∧
      (parseChapterBlueprint (renderBlueprint preamble chapters)).map (fun e => e.title)
        = chapters.map (fun c => c.title) ∧
      ∀ e ∈ parseChapterBlueprint (renderBlueprint preamble chapters), e.title ≠ [] := by
  simp only [wellFormedBlueprint, Bool.and_eq_true] at h
  obtain ⟨hpre, hwf⟩ := h
  obtain ⟨hkeys, hnums, hplain⟩ := headingMatchesFrom_rendered chapters 1 (0 + preamble.length) hwf
  have hparse : parseChapterBlueprint (renderBlueprint preamble chapters)
      = (headingMatches (renderBlueprint preamble chapters)).map
          (entryOf (renderBlueprint preamble chapters)) := by
    unfold parseChapterBlueprint
    split
    · rename_i he
      rw [List.isEmpty_iff.mp he]
      rfl
    · rfl
  have hscan : headingMatches (renderBlueprint preamble chapters)
      = headingMatchesFrom 0 (0 + preamble.length) (renderChapters chapters) := by
    unfold headingMatches renderBlueprint
    exact headingMatchesFrom_noHeading preamble (renderChapters chapters) hpre 0
  have hpairs : (parseChapterBlueprint (renderBlueprint preamble chapters)).map
      (fun e => (e.number, e.title)) = chapters.map (fun c => (c.number, c.title)) := by
    rw [hparse, hscan, List.map_map, ← hkeys]
    rfl
  have hnumbers : (parseChapterBlueprint (renderBlueprint preamble chapters)).map
      (fun e => e.number) = chapters.map (fun c => c.number) := by
    have := congrArg (List.map Prod.fst) hpairs
    simpa [List.map_map, Function.comp_def] using this
  have htitles : (parseChapterBlueprint (renderBlueprint preamble chapters)).map
      (fun e => e.title) = chapters.map (fun c => c.title) := by
    have := congrArg (List.map Prod.snd) hpairs
    simpa [List.map_map, Function.comp_def] using this
  refine ⟨?_, ?_, htitles, ?_⟩
  · have := congrArg List.length hpairs
    simpa using this
  · rw [hnumbers, hnums]
  · intro e he htitle
    have hmem : e.title ∈ chapters.map (fun c => c.title) := by
      rw [← htitles]
      exact List.mem_map_of_mem _ he
    obtain ⟨c, hc, hct⟩ := List.mem_map.mp hmem
    have := (plainTitle_spec c.title (hplain c hc)).1
    rw [hct, htitle] at this
    exact this rfl

/-- Witness of `parseChapterBlueprint_wellFormed`: a blueprint of two chapters
in the two heading styles, each with its field lines, parses into the entries
1 and 2 with the titles of the headings. -/
theorem parseChapterBlueprint_wellFormed_witness :
    (renderBlueprint [] sampleChapters).take 16 = "第1章 - 开端\n承接点：无\n本".toList ∧
      (parseChapterBlueprint (renderBlueprint [] sampleChapters)).map (fun e => e.number)
        = [1, 2] ∧
      (parseChapterBlueprint (renderBlueprint [] sampleChapters)).map (fun e => e.title)
        = ["开端".toList, "转折".toList] := by
  have h := parseChapterBlueprint_wellFormed [] sampleChapters (by decide)
  exact ⟨by decide, h.2.1.trans (by decide), h.2.2.1.trans (by decide)⟩

/-! ## Architecture generation -/

/-- C11 as stated fails: on a project without content, with a client whose
first answer is empty, the request for `characterDynamics` is issued while
`coreSeed` is still empty in the working snapshot. -/
theorem generateArchitecture_requests_after_empty_seed :
    ((generateArchitecture blankArchitecturePrompts emptyFirstClient emptyProject).requests.map
        (fun r => (r.field, r.snapshot.coreSeed)))
      = [(.coreSeed, []), (.characterDynamics, []), (.characterState, []),
          (.worldBuilding, []), (.plotArchitecture, [])] ∧
      ArchitectureField.coreSeed ∈ ArchitectureField.predecessors .characterDynamics := by
  decide

/-- Assigning a field yields that value for the field. -/
theorem get_set_self (f : ArchitectureField) (p : Project) (v : Text) :
    f.get (f.set p v) = v := by
  cases f <;> rfl

/-- Assigning a field leaves the other fields as they are. -/
theorem get_set_of_ne (f g : ArchitectureField) (p : Project) (v : Text) (h : f ≠ g) :
    f.get (g.set p v) = f.get p := by
  cases f <;> cases g <;> first | rfl | exact absurd rfl h

/-- Every request of the sub-stages is issued by a sub-stage whose condition
holds on the working snapshot at that moment. -/
theorem runStages_guarded (client : Completion) :
    ∀ (stages : List ArchitectureStage) (log : List ArchitectureRequest) (results : Project),
      ∃ added, (runStages client stages log results).requests = log ++ added ∧
        ∀ req ∈ added, ∃ stage ∈ stages, stage.field = req.field ∧
          stage.guard req.snapshot = true := by
  intro stages
  induction stages with
  | nil => intro log results; exact ⟨[], by simp [runStages], by simp⟩
  | cons stage rest ih =>
    intro log results
    rw [runStages]
    by_cases hg : stage.guard results = true
    · rw [if_pos hg]
      dsimp only
      cases hc : client log.length (stage.promptOf results) with
      | error e =>
        refine ⟨[⟨stage.field, results, stage.promptOf results⟩], rfl, ?_⟩
        intro req hreq
        rw [List.mem_singleton] at hreq
        subst hreq
        exact ⟨stage, by simp, rfl, hg⟩
      | ok response =>
        obtain ⟨added, hreq, hall⟩ := ih (log ++ [⟨stage.field, results, stage.promptOf results⟩])
          (stage.field.set results (cleanResponse response))
        refine ⟨⟨stage.field, results, stage.promptOf results⟩ :: added, ?_, ?_⟩
        · dsimp only
          rw [hreq, List.append_assoc]
          rfl
        · intro req hmem
          rcases List.mem_cons.mp hmem with h | h
          · subst h
            exact ⟨stage, by simp, rfl, hg⟩
          · obtain ⟨st, hst, h1, h2⟩ := hall req h
            exact ⟨st, List.mem_cons_of_mem _ hst, h1, h2⟩
    · rw [if_neg hg]
      obtain ⟨added, hreq, hall⟩ := ih log results
      refine ⟨added, hreq, ?_⟩
      intro req hmem
      obtain ⟨st, hst, h1, h2⟩ := hall req hmem
      exact ⟨st, List.mem_cons_of_mem _ hst, h1, h2⟩

/-- When no sanitized response is empty and the sub-stages come in field
order, every request is issued with all predecessors of its field populated
in the working snapshot. -/
theorem runStages_predecessors (client : Completion)
    (hresp : ∀ i p r, client i p = .ok r → cleanResponse r ≠ []) :
    ∀ (stages : List ArchitectureStage) (done : List ArchitectureField)
      (log : List ArchitectureRequest) (results : Project),
      (∀ g ∈ done, g.get results ≠ []) → stagesInOrder done stages →
      ∃ added, (runStages client stages log results).requests = log ++ added ∧
        ∀ req ∈ added, ∀ g ∈ req.field.predecessors, g.get req.snapshot ≠ [] := by
  intro stages
  induction stages with
  | nil => intro done log results _ _; exact ⟨[], by simp [runStages], by simp⟩
  | cons stage rest ih =>
    intro done log results hdone hord
    obtain ⟨hpred, hskip, hrest⟩ := hord
    rw [runStages]
    by_cases hg : stage.guard results = true
    · rw [if_pos hg]
      dsimp only
      have hhere : ∀ g ∈ stage.field.predecessors, g.get results ≠ [] := by
        rw [hpred]
        exact hdone
      cases hc : client log.length (stage.promptOf results) with
      | error e =>
        refine ⟨[⟨stage.field, results, stage.promptOf results⟩], rfl, ?_⟩
        intro req hreq
        rw [List.mem_singleton] at hreq
        subst hreq
        exact hhere
      | ok response =>
        have hne := hresp _ _ _ hc
        have hdone1 : ∀ g ∈ done ++ [stage.field],
            g.get (stage.field.set results (cleanResponse response)) ≠ [] := by
          intro g hgm
          by_cases hgf : g = stage.field
          · rw [hgf, get_set_self]
            exact hne
          · rw [get_set_of_ne g stage.field _ _ hgf]
            rcases List.mem_append.mp hgm with h | h
            · exact hdone g h
            · exact absurd (List.mem_singleton.mp h) hgf
        obtain ⟨added, hreq, hall⟩ := ih (done ++ [stage.field])
          (log ++ [⟨stage.field, results, stage.promptOf results⟩])
          (stage.field.set results (cleanResponse response)) hdone1 hrest
        refine ⟨⟨stage.field, results, stage.promptOf results⟩ :: added, ?_, ?_⟩
        · dsimp only
          rw [hreq, List.append_assoc]
          rfl
        · intro req hmem
          rcases List.mem_cons.mp hmem with h | h
          · subst h
            exact hhere
          · exact hall req h
    · rw [if_neg hg]
      have hfield : stage.field.get results ≠ [] :=
        hskip results hdone (by simpa using hg)
      have hdone1 : ∀ g ∈ done ++ [stage.field], g.get results ≠ [] := by
        intro g hgm
        rcases List.mem_append.mp hgm with h | h
        · exact hdone g h
        · rw [List.mem_singleton.mp h]
          exact hfield
      exact ih (done ++ [stage.field]) log results hdone1 hrest

/-- The five sub-stages of `generateArchitecture` come in field order. -/
theorem architectureStages_inOrder (prompts : ArchitecturePrompts) (project : Project) :
    stagesInOrder [] (architectureStages prompts project) := by
  have hne : ∀ t : Text, t.isEmpty = false → t ≠ [] := by
    intro t ht h0
    rw [h0] at ht
    cases ht
  refine ⟨rfl, ?_, rfl, ?_, rfl, ?_, rfl, ?_, rfl, ?_, trivial⟩
  · intro r _ hg
    exact hne _ hg
  · intro r _ hg
    exact hne _ hg
  · intro r hdone hg
    have hcd : r.characterDynamics ≠ [] := hdone .characterDynamics (by simp)
    have hcd2 : r.characterDynamics.isEmpty = false := by
      cases h : r.characterDynamics with
      | nil => exact absurd h hcd
      | cons a l => rfl
    simp only [hcd2, Bool.not_false, Bool.and_true] at hg
    exact hne _ hg
  · intro r _ hg
    exact hne _ hg
  · intro r _ hg
    exact hne _ hg

/-- C11 amended: in every run of `generateArchitecture`, a request for a field
is issued only when that field is empty in the working snapshot, and a request
for `characterState` only when `characterDynamics` is non-empty in it; and when
no sanitized response of the client is empty, a request for a field is issued
only when all of its predecessors in the order coreSeed, characterDynamics,
characterState, worldBuilding, plotArchitecture are non-empty in the working
snapshot at that moment. -/
theorem generateArchitecture_predecessors (prompts : ArchitecturePrompts)
    (client : Completion) (project : Project) :
    (∀ req ∈ (generateArchitecture prompts client project).requests,
        req.field.get req.snapshot = [] ∧
          (req.field = .characterState → req.snapshot.characterDynamics ≠ [])) ∧
      ((∀ i p r, client i p = .ok r → cleanResponse r ≠ []) →
        ∀ req ∈ (generateArchitecture prompts client project).requests,
          ∀ g ∈ req.field.predecessors, g.get req.snapshot ≠ []) := by
  constructor
  · obtain ⟨added, hreq, hall⟩ :=
      runStages_guarded client (architectureStages prompts project) [] project
    intro req hmem
    unfold generateArchitecture at hmem
    rw [hreq, List.nil_append] at hmem
    obtain ⟨stage, hst, hfield, hguard⟩ := hall req hmem
    simp only [architectureStages, List.mem_cons, List.mem_singleton, List.not_mem_nil,
      or_false] at hst
    have hf := hfield.symm
    rcases hst with h | h | h | h | h <;> subst h <;>
      simp only [Bool.and_eq_true, Bool.not_eq_true', List.isEmpty_iff] at hguard hf <;>
      rw [hf] <;> dsimp only [ArchitectureField.get]
    · exact ⟨hguard, fun h => by cases h⟩
    · exact ⟨hguard, fun h => by cases h⟩
    · refine ⟨hguard.1, fun _ h0 => ?_⟩
      rw [h0] at hguard
      exact absurd hguard.2 (by decide)
    · exact ⟨hguard, fun h => by cases h⟩
    · exact ⟨hguard, fun h => by cases h⟩
  · intro hresp
    obtain ⟨added, hreq, hall⟩ :=
      runStages_predecessors client hresp (architectureStages prompts project) [] [] project
        (by simp) (architectureStages_inOrder prompts project)
    intro req hmem
    unfold generateArchitecture at hmem
    rw [hreq, List.nil_append] at hmem
    exact hall req hmem

/-- Witness of `generateArchitecture_predecessors`: with a client that always
answers `文`, the request for `plotArchitecture` on a project without content
sees the four fields before it populated. -/
theorem generateArchitecture_predecessors_witness :
    ∀ req ∈ (generateArchitecture blankArchitecturePrompts (constantClient "文".toList)
        emptyProject).requests,
      ∀ g ∈ req.field.predecessors, g.get req.snapshot ≠ [] :=
  (generateArchitecture_predecessors blankArchitecturePrompts (constantClient "文".toList)
    emptyProject).2
    (by
      intro i p r h
      have hr : r = "文".toList := by
        simp only [constantClient, Except.ok.injEq] at h
        exact h.symm
      rw [hr]
      decide)

/-- A field that is populated, and that every sub-stage for it tests to be
empty, is neither requested nor changed by the sub-stages. -/
theorem runStages_keeps_populated (client : Completion) (f : ArchitectureField) :
    ∀ (stages : List ArchitectureStage) (log : List ArchitectureRequest) (results : Project),
      (∀ stage ∈ stages, stage.field = f → ∀ r, stage.guard r = true → f.get r = []) →
      f.get results ≠ [] →
      (∃ added, (runStages client stages log results).requests = log ++ added ∧
        ∀ req ∈ added, req.field ≠ f) ∧
      ∀ out, (runStages client stages log results).result = .ok out →
        f.get out = f.get results := by
  intro stages
  induction stages with
  | nil =>
    intro log results _ _
    refine ⟨⟨[], by simp [runStages], by simp⟩, ?_⟩
    intro out hout
    simp only [runStages, Except.ok.injEq] at hout
    rw [hout]
  | cons stage rest ih =>
    intro log results hguards hne
    have hrest : ∀ st ∈ rest, st.field = f → ∀ r, st.guard r = true → f.get r = [] :=
      fun st hst => hguards st (List.mem_cons_of_mem _ hst)
    rw [runStages]
    by_cases hg : stage.guard results = true
    · rw [if_pos hg]
      dsimp only
      have hfield : stage.field ≠ f := by
        intro hf
        exact hne (hguards stage (by simp) hf results hg)
      cases hc : client log.length (stage.promptOf results) with
      | error e =>
        refine ⟨⟨[⟨stage.field, results, stage.promptOf results⟩], rfl, ?_⟩, ?_⟩
        · intro req hreq
          rw [List.mem_singleton] at hreq
          rw [hreq]
          exact hfield
        · intro out hout
          cases hout
      | ok response =>
        have hkeep : f.get (stage.field.set results (cleanResponse response)) = f.get results :=
          get_set_of_ne f stage.field _ _ (fun h => hfield h.symm)
        obtain ⟨⟨added, hreq, hall⟩, hout⟩ :=
          ih (log ++ [⟨stage.field, results, stage.promptOf results⟩])
            (stage.field.set results (cleanResponse response)) hrest (by rw [hkeep]; exact hne)
        refine ⟨⟨⟨stage.field, results, stage.promptOf results⟩ :: added, ?_, ?_⟩, ?_⟩
        · dsimp only
          rw [hreq, List.append_assoc]
          rfl
        · intro req hmem
          rcases List.mem_cons.mp hmem with h | h
          · rw [h]
            exact hfield
          · exact hall req h
        · intro out ho
          rw [hout out ho, hkeep]
    · rw [if_neg hg]
      exact ih log results hrest hne

/-- When the field of every sub-stage is populated, the sub-stages issue no
request and return the snapshot as it is. -/
theorem runStages_all_populated (client : Completion) :
    ∀ (stages : List ArchitectureStage) (log : List ArchitectureRequest) (results : Project),
      (∀ stage ∈ stages, ∀ r, stage.guard r = true → stage.field.get r = []) →
      (∀ stage ∈ stages, stage.field.get results ≠ []) →
      runStages client stages log results = ⟨log, .ok results⟩ := by
  intro stages
  induction stages with
  | nil => intro log results _ _; rfl
  | cons stage rest ih =>
    intro log results hguards hne
    have hg : ¬ stage.guard results = true :=
      fun hg => hne stage (by simp) (hguards stage (by simp) results hg)
    rw [runStages, if_neg hg]
    exact ih log results (fun st hst => hguards st (List.mem_cons_of_mem _ hst))
      (fun st hst => hne st (List.mem_cons_of_mem _ hst))

/-- The condition of every sub-stage of `generateArchitecture` requires the
field of that sub-stage to be empty. -/
theorem architectureStages_guard (prompts : ArchitecturePrompts) (project : Project) :
    ∀ stage ∈ architectureStages prompts project,
      ∀ r, stage.guard r = true → stage.field.get r = [] := by
  intro stage hst r hg
  simp only [architectureStages, List.mem_cons, List.mem_singleton, List.not_mem_nil,
    or_false] at hst
  rcases hst with h | h | h | h | h <;> subst h <;>
    simp only [Bool.and_eq_true, Bool.not_eq_true', List.isEmpty_iff] at hg <;>
    dsimp only [ArchitectureField.get]
  · exact hg
  · exact hg
  · exact hg.1
  · exact hg
  · exact hg

/-- C12: `generateArchitecture` skips populated sub-stages: for every
architecture field that is non-empty in the input project, no request is issued
for that field and a returned snapshot carries the same value for it; when all
five fields are non-empty, no request is issued at all and the returned
snapshot is the input. -/
theorem generateArchitecture_skips_populated (prompts : ArchitecturePrompts)
    (client : Completion) (project : Project) :
    (∀ f : ArchitectureField, f.get project ≠ [] →
        (∀ req ∈ (generateArchitecture prompts client project).requests, req.field ≠ f) ∧
          ∀ out, (generateArchitecture prompts client project).result = .ok out →
            f.get out = f.get project) ∧
      ((∀ f : ArchitectureField, f.get project ≠ []) →
        (generateArchitecture prompts client project).requests = [] ∧
          (generateArchitecture prompts client project).result = .ok project) := by
  constructor
  · intro f hf
    obtain ⟨⟨added, hreq, hall⟩, hout⟩ :=
      runStages_keeps_populated client f (architectureStages prompts project) [] project
        (fun stage hst hfield r hg => by
          rw [← hfield]
          exact architectureStages_guard prompts project stage hst r hg)
        hf
    refine ⟨?_, hout⟩
    intro req hmem
    unfold generateArchitecture at hmem
    rw [hreq, List.nil_append] at hmem
    exact hall req hmem
  · intro hall
    have hrun := runStages_all_populated client (architectureStages prompts project) []
      project (architectureStages_guard prompts project) (fun stage _ => hall stage.field)
    unfold generateArchitecture
    rw [hrun]
    exact ⟨rfl, rfl⟩

/-- Witness of `generateArchitecture_skips_populated`: on a project whose five
fields are populated no request is issued and the project is returned. -/
theorem generateArchitecture_skips_populated_witness :
    (generateArchitecture blankArchitecturePrompts (constantClient "文".toList)
        populatedProject).requests = [] ∧
      (generateArchitecture blankArchitecturePrompts (constantClient "文".toList)
        populatedProject).result = .ok populatedProject :=
  (generateArchitecture_skips_populated blankArchitecturePrompts (constantClient "文".toList)
    populatedProject).2 (by intro f; cases f <;> decide)

/-! ## Repair on failure -/

/-- C13: for every `params`, if prompt construction fails, the repair request
fails, or the sanitized response is empty, `fixChapterByQuality` returns (it
never throws) exactly `params.chapterText`. -/
theorem fixChapterByQuality_keeps_text_on_failure (prompts : UtilityPrompts)
    (client : Completion) (params : FixParams)
    (h : prompts.fixChapter (fixPromptParamsOf params) = none ∨
      ∃ prompt, prompts.fixChapter (fixPromptParamsOf params) = some prompt ∧
        ((∃ e, client 0 prompt = .error e) ∨
          ∃ response, client 0 prompt = .ok response ∧ cleanResponse response = [])) :
    (fixChapterByQuality prompts client params).result = params.chapterText := by
  rcases h with h | ⟨prompt, hp, ⟨e, he⟩ | ⟨response, hr, hempty⟩⟩
  · simp only [fixChapterByQuality, h]
  · simp only [fixChapterByQuality, hp, he]
  · simp only [fixChapterByQuality, hp, hr, hempty, orElse]
    rfl

/-- Witness of `fixChapterByQuality_keeps_text_on_failure`: the request fails
with status 500 and the chapter text `原稿` is returned. -/
theorem fixChapterByQuality_keeps_text_on_failure_witness :
    (fixChapterByQuality blankUtilityPrompts (failingClient 500)
      ⟨"原稿".toList, 1, [], [], 1000, 0, [], defaultReport "原稿".toList ["太短".toList]⟩).result
      = "原稿".toList :=
  fixChapterByQuality_keeps_text_on_failure blankUtilityPrompts (failingClient 500)
    ⟨"原稿".toList, 1, [], [], 1000, 0, [], defaultReport "原稿".toList ["太短".toList]⟩
    (Or.inr ⟨[], rfl, Or.inl ⟨_, rfl⟩⟩)

/-! ## Stream decoding -/

/-- C15 as stated fails: a data line behind the end-of-stream line still adds
its content; the body `data: 甲`, `data: [DONE]`, `data: 乙` is read as `甲乙`,
not as `甲`. -/
theorem streamCompletion_reads_past_done :
    eventLines ["data: 甲\ndata: [DONE]\ndata: 乙".toList]
        = ["data: 甲".toList, doneLine, "data: 乙".toList] ∧
      contentBeforeDone (fun d => some d) ["data: 甲\ndata: [DONE]\ndata: 乙".toList]
        = "甲".toList ∧
      (streamCompletion (fun d => some d)
        (fun _ => .response 200 ["data: 甲\ndata: [DONE]\ndata: 乙".toList])).result
        = .returned "甲乙".toList := by
  decide

/-- A call of `streamCompletion` that returns a text read it from the body of
an attempt answered with a success status. -/
theorem streamAttempts_returned (deltaOf : Text → Option Text) (server : Nat → FetchOutcome)
    (retries : Nat) :
    ∀ (remaining : Nat) (events : List StreamEvent) (content : Text),
      (streamAttempts deltaOf server retries remaining events).result = .returned content →
      ∃ attempt status body, server attempt = .response status body ∧ isOk status = true ∧
        content = streamContent deltaOf body := by
  intro remaining
  induction remaining with
  | zero =>
    intro events content h
    simp [streamAttempts] at h
  | succ remaining ih =>
    intro events content h
    rw [streamAttempts] at h
    dsimp only at h
    cases hs : server (retries - remaining) with
    | rejected message =>
      rw [hs] at h
      dsimp only at h
      split at h
      · exact ih _ _ h
      · cases h
    | response status body =>
      rw [hs] at h
      dsimp only at h
      split at h
      · rename_i hok
        simp only [StreamResult.returned.injEq] at h
        exact ⟨_, status, body, hs, hok, h.symm⟩
      · split at h
        · exact ih _ _ h
        · split at h
          · exact ih _ _ h
          · cases h

/-- C15 amended: the end-of-stream line itself contributes no content, and the
text returned by `streamCompletion` is the concatenation of the delta contents
of all well-formed data lines of the body that was read, those in front of the
end-of-stream line and those behind it: the read ends with the body, not at
the marker. -/
theorem streamCompletion_content (deltaOf : Text → Option Text)
    (server : Nat → FetchOutcome) (content : Text)
    (h : (streamCompletion deltaOf server).result = .returned content) :
    lineContent deltaOf doneLine = [] ∧
      ∃ attempt status body, server attempt = .response status body ∧ isOk status = true ∧
        content = linesContent deltaOf (eventLines body) ∧
        ∀ front behind, eventLines body = front ++ doneLine :: behind →
          content = linesContent deltaOf front ++ linesContent deltaOf behind := by
  have hdone : lineContent deltaOf doneLine = [] := by
    have hp : dataPrefix.isPrefixOf doneLine = true := by decide
    have hd : doneLine.drop 6 = doneMarker := by decide
    simp [lineContent, hp, hd]
  refine ⟨hdone, ?_⟩
  obtain ⟨attempt, status, body, hs, hok, hc⟩ :=
    streamAttempts_returned deltaOf server 3 3 [] content h
  refine ⟨attempt, status, body, hs, hok, hc, ?_⟩
  intro front behind hsplit
  rw [hc]
  show linesContent deltaOf (eventLines body) = _
  rw [hsplit]
  simp [linesContent, hdone]

/-- Witness of `streamCompletion_content`: the body `data: 甲`, `data: [DONE]`,
`data: 乙` is returned as `甲乙`. -/
theorem streamCompletion_content_witness :
    ∃ attempt status body,
      (fun (_ : Nat) => FetchOutcome.response 200 ["data: 甲\ndata: [DONE]\ndata: 乙".toList])
        attempt = .response status body ∧ isOk status = true ∧
      "甲乙".toList = linesContent (fun d => some d) (eventLines body) :=
  let ⟨attempt, status, body, h1, h2, h3, _⟩ :=
    (streamCompletion_content (fun d => some d)
      (fun _ => .response 200 ["data: 甲\ndata: [DONE]\ndata: 乙".toList]) "甲乙".toList
      (by decide)).2
  ⟨attempt, status, body, h1, h2, h3⟩

/-! ## Field extraction -/

/-- C17 at the failing input: the label `承接点` has no value on its line, and
the `position` of the entry is the whole next line, `本章冲突：打斗`, not the
empty text that follows the colon up to the line break. -/
theorem parseChapterBlueprint_field_from_next_line :
    (parseChapterBlueprint "第1章 - 开端\n承接点：\n本章冲突：打斗\n".toList).map
        (fun e => (e.number, e.position))
      = [(1, "本章冲突：打斗".toList)] ∧
      extractField "承接点：\n本章冲突：打斗\n".toList "承接点".toList = "本章冲突：打斗".toList := by
  decide

/-! ## Chunk ranges -/

/-- The ranges requested by the chunk loop are consecutive from
`currentStart`, and they partition `currentStart..numberOfChapters` when the
loop returns a blueprint. -/
theorem chunkLoop_ranges (prompts : ChapterPrompts) (client : Completion) (project : Project)
    (size : Nat) (hsize : 1 ≤ size) :
    ∀ (fuel currentStart : Nat) (blueprint : Text) (log : List BlueprintRequest),
      ∃ added,
        (chunkLoop prompts client project size fuel currentStart blueprint log).requests
          = log ++ added ∧
        consecutiveFrom currentStart size project.numberOfChapters
          (added.map BlueprintRequest.range) = true ∧
        (∀ out, (chunkLoop prompts client project size fuel currentStart blueprint log).result
            = some (.ok out) → currentStart ≤ project.numberOfChapters + 1 →
          partitionsRange currentStart size project.numberOfChapters
            (added.map BlueprintRequest.range) = true) := by
  intro fuel
  induction fuel with
  | zero =>
    intro currentStart blueprint log
    refine ⟨[], by simp [chunkLoop], rfl, ?_⟩
    intro out hout
    simp [chunkLoop] at hout
  | succ fuel ih =>
    intro currentStart blueprint log
    rw [chunkLoop]
    by_cases hle : currentStart ≤ project.numberOfChapters
    · rw [if_pos hle]
      dsimp only
      have hrange : (chunkRequestOf prompts project size currentStart blueprint).range
          = (currentStart, min (currentStart + size - 1) project.numberOfChapters) := rfl
      have hhead : ∀ rest : List (Nat × Nat),
          consecutiveFrom currentStart size project.numberOfChapters
            ((currentStart, min (currentStart + size - 1) project.numberOfChapters) :: rest)
          = consecutiveFrom (min (currentStart + size - 1) project.numberOfChapters + 1) size
              project.numberOfChapters rest := by
        intro rest
        have h1 : currentStart ≤ min (currentStart + size - 1) project.numberOfChapters := by
          omega
        have h2 : min (currentStart + size - 1) project.numberOfChapters
            ≤ project.numberOfChapters := Nat.min_le_right _ _
        have h3 : min (currentStart + size - 1) project.numberOfChapters + 1 - currentStart
            ≤ size := by omega
        simp [consecutiveFrom, h1, h2, h3]
      have hheadP : ∀ rest : List (Nat × Nat),
          partitionsRange currentStart size project.numberOfChapters
            ((currentStart, min (currentStart + size - 1) project.numberOfChapters) :: rest)
          = partitionsRange (min (currentStart + size - 1) project.numberOfChapters + 1) size
              project.numberOfChapters rest := by
        intro rest
        have h1 : currentStart ≤ min (currentStart + size - 1) project.numberOfChapters := by
          omega
        have h2 : min (currentStart + size - 1) project.numberOfChapters
            ≤ project.numberOfChapters := Nat.min_le_right _ _
        have h3 : min (currentStart + size - 1) project.numberOfChapters + 1 - currentStart
            ≤ size := by omega
        simp [partitionsRange, h1, h2, h3]
      cases hc : client log.length
          (prompts.blueprintChunked (chunkParamsOf project size currentStart blueprint)) with
      | error e =>
        dsimp only
        refine ⟨[chunkRequestOf prompts project size currentStart blueprint], rfl, ?_, ?_⟩
        · rw [List.map_singleton, hrange, hhead]
          rfl
        · intro out hout
          simp at hout
      | ok response =>
        dsimp only
        obtain ⟨added, hreq, hcons, hpart⟩ :=
          ih ((chunkParamsOf project size currentStart blueprint).endChapter + 1)
            (appendChunk blueprint (cleanResponse response))
            (log ++ [chunkRequestOf prompts project size currentStart blueprint])
        refine ⟨chunkRequestOf prompts project size currentStart blueprint :: added,
          ?_, ?_, ?_⟩
        · rw [hreq, List.append_assoc]
          rfl
        · rw [List.map_cons, hrange, hhead]
          exact hcons
        · intro out hout _
          rw [List.map_cons, hrange, hheadP]
          exact hpart out hout
            (Nat.succ_le_succ (Nat.min_le_right _ _))
    · rw [if_neg hle]
      refine ⟨[], by simp, rfl, ?_⟩
      intro out _ hstart
      have : currentStart = project.numberOfChapters + 1 := by omega
      simp [partitionsRange, this]

/-- C18: in chunked blueprint generation with `1 ≤ numberOfChapters`, when the
highest chapter number `m` present in the existing blueprint is below
`numberOfChapters`, the chunk loop terminates, the requested ranges are
consecutive from `m + 1` (each next one starts right behind the previous one,
each holds between 1 and `chunkSize` chapters), and when no request fails a
blueprint is returned and the ranges partition `m + 1 .. numberOfChapters`;
when `m ≥ numberOfChapters` no request is issued and the blueprint is returned
unchanged. -/
theorem generateChapterBlueprint_chunk_ranges (quotient : FlooredQuotient)
    (prompts : ChapterPrompts) (client : Completion) (project : Project) (maxTokens : Nat)
    (_hn : 1 ≤ project.numberOfChapters)
    (hchunked : ¬ (project.numberOfChapters
        ≤ chunkSize quotient maxTokens project.numberOfChapters ∧
      project.chapterBlueprint.isEmpty = true)) :
    (maxExistingChapter project.chapterBlueprint < project.numberOfChapters →
        (generateChapterBlueprint quotient prompts client project maxTokens).result ≠ none ∧
          consecutiveFrom (maxExistingChapter project.chapterBlueprint + 1)
            (chunkSize quotient maxTokens project.numberOfChapters) project.numberOfChapters
            ((generateChapterBlueprint quotient prompts client project maxTokens).requests.map
              BlueprintRequest.range) = true ∧
          ((∀ i p, ∃ r, client i p = .ok r) →
            (∃ out, (generateChapterBlueprint quotient prompts client project maxTokens).result
              = some (.ok out)) ∧
            partitionsRange (maxExistingChapter project.chapterBlueprint + 1)
              (chunkSize quotient maxTokens project.numberOfChapters) project.numberOfChapters
              ((generateChapterBlueprint quotient prompts client project maxTokens).requests.map
                BlueprintRequest.range) = true)) ∧
      (project.numberOfChapters ≤ maxExistingChapter project.chapterBlueprint →
        (generateChapterBlueprint quotient prompts client project maxTokens).requests = [] ∧
          (generateChapterBlueprint quotient prompts client project maxTokens).result
            = some (.ok project.chapterBlueprint)) := by
  have hrun : generateChapterBlueprint quotient prompts client project maxTokens
      = chunkLoop prompts client project (chunkSize quotient maxTokens project.numberOfChapters)
          (project.numberOfChapters + 1) (maxExistingChapter project.chapterBlueprint + 1)
          project.chapterBlueprint [] := by
    simp only [generateChapterBlueprint, if_neg hchunked]
  have hsize : 1 ≤ chunkSize quotient maxTokens project.numberOfChapters :=
    le_trans (by decide) (clampChunkSize_range _ _).1
  rw [hrun]
  constructor
  · intro hlt
    obtain ⟨_, hres, _, htot⟩ :=
      chunkLoop_spec prompts client project _ hsize (project.numberOfChapters + 1)
        (maxExistingChapter project.chapterBlueprint + 1) project.chapterBlueprint []
        (by omega)
    obtain ⟨added, hreq, hcons, hpart⟩ :=
      chunkLoop_ranges prompts client project _ hsize (project.numberOfChapters + 1)
        (maxExistingChapter project.chapterBlueprint + 1) project.chapterBlueprint []
    rw [List.nil_append] at hreq
    rw [hreq]
    refine ⟨hres, hcons, ?_⟩
    intro htotal
    obtain ⟨out, hout⟩ := htot htotal
    exact ⟨⟨out, hout⟩, hpart out hout (by omega)⟩
  · intro hge
    have hnot : ¬ maxExistingChapter project.chapterBlueprint + 1
        ≤ project.numberOfChapters := by omega
    rw [chunkLoop, if_neg hnot]
    exact ⟨rfl, rfl⟩

/-- Witness of `generateChapterBlueprint_chunk_ranges`: twelve chapters, the
chapters 1 and 2 present, a chunk size of five: the ranges requested are
3..7 and 8..12. -/
theorem generateChapterBlueprint_chunk_ranges_witness :
    chunkSize exactQuotient 2500 12 = 5 ∧
      ((generateChapterBlueprint exactQuotient blankChapterPrompts
          (constantClient "第3章 - 续".toList)
          (sampleProject 12 "第1章 - 开端\n第2章 - 转折".toList) 2500).requests.map
        BlueprintRequest.range) = [(3, 7), (8, 12)] ∧
      partitionsRange 3 5 12
        ((generateChapterBlueprint exactQuotient blankChapterPrompts
            (constantClient "第3章 - 续".toList)
            (sampleProject 12 "第1章 - 开端\n第2章 - 转折".toList) 2500).requests.map
          BlueprintRequest.range) = true := by
  have h := (generateChapterBlueprint_chunk_ranges exactQuotient blankChapterPrompts
    (constantClient "第3章 - 续".toList)
    (sampleProject 12 "第1章 - 开端\n第2章 - 转折".toList) 2500 (by decide) (by decide)).1
    (by decide)
  exact ⟨by decide, by decide, (h.2.2 (fun _ _ => ⟨_, rfl⟩)).2⟩

/-! ## Throttled delivery -/

/-- A line adds its content to the accumulated text, whatever the throttle
does. -/
theorem processLine_fullContent (deltaOf : Text → Option Text) (clock : StreamClock)
    (st : StreamState) (line : Text) :
    (processLine deltaOf clock st line).fullContent
      = st.fullContent ++ lineContent deltaOf line := by
  unfold processLine lineContent
  by_cases hp : dataPrefix.isPrefixOf line = true
  · rw [if_pos hp, if_pos hp]
    dsimp only
    by_cases hd : line.drop 6 = doneMarker
    · rw [if_pos hd, if_pos hd]
      simp
    · rw [if_neg hd, if_neg hd]
      cases hdelta : deltaOf (line.drop 6) with
      | none => simp
      | some content =>
        dsimp only
        by_cases he : content.isEmpty = true
        · rw [if_pos he, List.isEmpty_iff.mp he]
          simp
        · rw [if_neg he]
          split
          · rfl
          · split <;> rfl
  · rw [if_neg hp, if_neg hp]
    simp

/-- The lines of a chunk add their contents in order. -/
theorem foldl_processLine_fullContent (deltaOf : Text → Option Text) (clock : StreamClock)
    (lines : List Text) :
    ∀ st, (lines.foldl (processLine deltaOf clock) st).fullContent
      = st.fullContent ++ linesContent deltaOf lines := by
  induction lines with
  | nil => intro st; simp [linesContent]
  | cons line lines ih =>
    intro st
    rw [List.foldl_cons, ih, processLine_fullContent]
    simp [linesContent, List.append_assoc]

/-- Awaiting a read does not change the accumulated text. -/
theorem awaitRead_fullContent (clock : StreamClock) (i : Nat) (st : StreamState) :
    (awaitRead clock i st).fullContent = st.fullContent := by
  unfold awaitRead fireTimer
  split
  · split <;> rfl
  · rfl

/-- The chunks add the contents of their lines in order. -/
theorem readChunks_fullContent (deltaOf : Text → Option Text) (clock : StreamClock)
    (body : List Text) :
    ∀ i st, (readChunks deltaOf clock i body st).fullContent
      = st.fullContent ++ linesContent deltaOf (eventLines body) := by
  induction body with
  | nil => intro i st; simp [readChunks, eventLines, linesContent]
  | cons chunk body ih =>
    intro i st
    rw [readChunks, ih, foldl_processLine_fullContent, awaitRead_fullContent]
    simp [eventLines, linesContent, List.append_assoc]

/-- When the reader is done, the accumulated text is the content of the body. -/
theorem readBody_fullContent (deltaOf : Text → Option Text) (clock : StreamClock)
    (body : List Text) :
    (readBody deltaOf clock body).fullContent = streamContent deltaOf body := by
  unfold readBody
  rw [awaitRead_fullContent, readChunks_fullContent]
  rfl

/-- The loop with callbacks makes the same requests and delays and ends in the
same way as the loop without them. -/
theorem streamAttemptsObserved_run (deltaOf : Text → Option Text) (clock : StreamClock)
    (server : Nat → FetchOutcome) (retries : Nat) :
    ∀ (remaining : Nat) (events : List StreamEvent),
      (streamAttemptsObserved deltaOf clock server retries remaining events).run
        = streamAttempts deltaOf server retries remaining events := by
  intro remaining
  induction remaining with
  | zero => intro events; rfl
  | succ remaining ih =>
    intro events
    rw [streamAttemptsObserved, streamAttempts]
    dsimp only
    cases server (retries - remaining) with
    | rejected message =>
      dsimp only
      split
      · exact ih _
      · rfl
    | response status body =>
      dsimp only
      split
      · show StreamRun.mk _ _ = StreamRun.mk _ _
        rw [show (finishStream (readBody deltaOf clock body)).fullContent
          = (readBody deltaOf clock body).fullContent from rfl, readBody_fullContent]
      · split
        · exact ih _
        · split
          · exact ih _
          · rfl

/-- A call that returns a text read the body of an attempt answered with a
success status; its callbacks are those made while the body was read, followed
by the final one, and no delayed delivery is left scheduled. -/
theorem streamAttemptsObserved_returned (deltaOf : Text → Option Text) (clock : StreamClock)
    (server : Nat → FetchOutcome) (retries : Nat) :
    ∀ (remaining : Nat) (events : List StreamEvent) (content : Text),
      (streamAttemptsObserved deltaOf clock server retries remaining events).run.result
        = .returned content →
      (streamAttemptsObserved deltaOf clock server retries remaining events).pendingUpdate
        = none ∧
      ∃ attempt status body, server attempt = .response status body ∧ isOk status = true ∧
        (streamAttemptsObserved deltaOf clock server retries remaining events).calls
          = (readBody deltaOf clock body).calls ++ [([], content)] ∧
        content = streamContent deltaOf body := by
  intro remaining
  induction remaining with
  | zero =>
    intro events content h
    simp [streamAttemptsObserved] at h
  | succ remaining ih =>
    intro events content h
    rw [streamAttemptsObserved] at h ⊢
    dsimp only at h ⊢
    cases hs : server (retries - remaining) with
    | rejected message =>
      rw [hs] at h
      dsimp only at h ⊢
      split at h
      · rename_i hlt
        rw [if_pos hlt]
        exact ih _ _ h
      · cases h
    | response status body =>
      rw [hs] at h
      dsimp only at h ⊢
      split at h
      · rename_i hok
        rw [if_pos hok]
        have hcontent : (readBody deltaOf clock body).fullContent = content := by
          simpa [finishStream] using h
        refine ⟨rfl, _, status, body, hs, hok, ?_, ?_⟩
        · simp [finishStream, hcontent]
        · rw [← hcontent, readBody_fullContent]
      · rename_i hok
        rw [if_neg hok]
        split at h
        · rename_i hretry
          rw [if_pos hretry]
          exact ih _ _ h
        · rename_i hretry
          rw [if_neg hretry]
          split at h
          · rename_i hlt
            rw [if_pos hlt]
            exact ih _ _ h
          · cases h

/-- C16: for every stream that completes successfully, whatever the clock and
whether or not a delayed delivery is pending, the invocations of the consumer
callback are those made while the body was read followed by exactly one more,
with an empty increment and the final accumulated text; no delayed delivery is
left scheduled behind it; and the value returned by `streamCompletion` is the
full text of that last invocation. -/
theorem streamCompletion_final_callback (deltaOf : Text → Option Text) (clock : StreamClock)
    (server : Nat → FetchOutcome) (content : Text)
    (h : (streamCompletion deltaOf server).result = .returned content) :
    (streamCompletionObserved deltaOf clock server).run = streamCompletion deltaOf server ∧
      (streamCompletionObserved deltaOf clock server).pendingUpdate = none ∧
      (streamCompletionObserved deltaOf clock server).calls.getLast? = some ([], content) ∧
      ∃ attempt status body, server attempt = .response status body ∧ isOk status = true ∧
        (streamCompletionObserved deltaOf clock server).calls
          = (readBody deltaOf clock body).calls ++ [([], content)] ∧
        content = streamContent deltaOf body := by
  have hrun := streamAttemptsObserved_run deltaOf clock server 3 3 []
  have hobs : (streamCompletionObserved deltaOf clock server).run.result
      = .returned content := by
    unfold streamCompletionObserved
    rw [hrun]
    exact h
  obtain ⟨hpending, attempt, status, body, hs, hok, hcalls, hc⟩ :=
    streamAttemptsObserved_returned deltaOf clock server 3 3 [] content hobs
  refine ⟨hrun, hpending, ?_, attempt, status, body, hs, hok, hcalls, hc⟩
  show (streamAttemptsObserved deltaOf clock server 3 3 []).calls.getLast? = _
  rw [hcalls]
  simp

/-- Witness of `streamCompletion_final_callback`: three increments arrive
within the throttle interval, the second is pending when the reader is done;
the consumer sees the first increment and then the final invocation with the
whole text. -/
theorem streamCompletion_final_callback_witness :
    (readBody (fun d => some d) fastClock ["data: 甲\ndata: 乙\ndata: 丙".toList]).pendingUpdate
        = some "乙".toList ∧
      (streamCompletionObserved (fun d => some d) fastClock
        (fun _ => .response 200 ["data: 甲\ndata: 乙\ndata: 丙".toList])).calls
        = [("甲".toList, "甲".toList), ([], "甲乙丙".toList)] ∧
      (streamCompletionObserved (fun d => some d) fastClock
        (fun _ => .response 200 ["data: 甲\ndata: 乙\ndata: 丙".toList])).pendingUpdate
        = none := by
  have h := streamCompletion_final_callback (fun d => some d) fastClock
    (fun _ => .response 200 ["data: 甲\ndata: 乙\ndata: 丙".toList]) "甲乙丙".toList
    (by decide)
  exact ⟨by decide, by decide, h.2.1⟩

/-! ## Windowed truncation -/

/-- A match of the marker pattern has the shape of a marker: the opener,
whitespace, the captured digits, whitespace, the closer. -/
theorem chapterMarker_some (u ds rest : Text) (h : chapterMarker u = some (ds, rest)) :
    ∃ w1 w2, u = markerOpen :: (w1 ++ (ds ++ (w2 ++ markerClose :: rest))) ∧
      (∀ c ∈ w1, isWhitespace c = true) ∧ (∀ c ∈ ds, isDigit c = true) ∧ ds ≠ [] ∧
      (∀ c ∈ w2, isWhitespace c = true) := by
  cases u with
  | nil => simp [chapterMarker] at h
  | cons c r =>
    simp only [chapterMarker] at h
    split at h
    · rename_i hc
      split at h
      · cases h
      · rename_i hne
        split at h
        · cases h
        · rename_i c2 r2 hr2
          split at h
          · rename_i hc2
            simp only [Option.some.injEq, Prod.mk.injEq] at h
            obtain ⟨hds, hrest⟩ := h
            refine ⟨r.takeWhile isWhitespace,
              ((r.dropWhile isWhitespace).dropWhile isDigit).takeWhile isWhitespace, ?_,
              fun x hx => List.mem_takeWhile_imp hx, ?_, ?_,
              fun x hx => List.mem_takeWhile_imp hx⟩
            · have e1 := List.takeWhile_append_dropWhile isWhitespace r
              have e2 := List.takeWhile_append_dropWhile isDigit (r.dropWhile isWhitespace)
              have e3 := List.takeWhile_append_dropWhile isWhitespace
                ((r.dropWhile isWhitespace).dropWhile isDigit)
              rw [hr2] at e3
              rw [hc, ← hds, ← hrest, ← hc2, e3, e2, e1]
            · intro x hx
              rw [← hds] at hx
              exact List.mem_takeWhile_imp hx
            · intro h0
              rw [← hds] at h0
              rw [h0] at hne
              exact hne rfl
          · cases h
    · cases h

/-- A match of the marker pattern spans the opener, a stretch without opener
or closer, and the closer; the same stretch matches in front of any text. -/
theorem chapterMarker_shape (u ds rest : Text) (h : chapterMarker u = some (ds, rest)) :
    ∃ q, u = markerOpen :: (q ++ markerClose :: rest) ∧ markerOpen ∉ q ∧ markerClose ∉ q ∧
      ∀ v, chapterMarker (markerOpen :: (q ++ markerClose :: v)) = some (ds, v) := by
  obtain ⟨w1, w2, hu, h1, hds, hne, h2⟩ := chapterMarker_some u ds rest h
  have hclass : ∀ c ∈ w1 ++ (ds ++ w2), isWhitespace c = true ∨ isDigit c = true := by
    intro c hc
    rcases List.mem_append.mp hc with hc | hc
    · exact Or.inl (h1 c hc)
    · rcases List.mem_append.mp hc with hc | hc
      · exact Or.inr (hds c hc)
      · exact Or.inl (h2 c hc)
  refine ⟨w1 ++ (ds ++ w2), by rw [hu]; simp [List.append_assoc], ?_, ?_, ?_⟩
  · intro hm
    rcases hclass _ hm with hc | hc
    · exact absurd hc (by decide)
    · exact absurd hc (by decide)
  · intro hm
    rcases hclass _ hm with hc | hc
    · exact absurd hc (by decide)
    · exact absurd hc (by decide)
  · intro v
    have := chapterMarker_rendered w1 ds w2 v h1 hds hne h2
    simpa [List.append_assoc] using this

/-- A match of the marker pattern does not depend on the text behind it. -/
theorem chapterMarker_append (u v ds rest : Text) (h : chapterMarker u = some (ds, rest)) :
    chapterMarker (u ++ v) = some (ds, rest ++ v) := by
  obtain ⟨q, hu, _, _, hloc⟩ := chapterMarker_shape u ds rest h
  have := hloc (rest ++ v)
  rw [hu]
  simpa [List.append_assoc] using this

/-- Where the marker pattern does not match a non-empty text, it does not
match either when a stretch without closer follows, itself followed by nothing
or by an opener. -/
theorem chapterMarker_none_append (u w v : Text) (hu : u ≠ []) (h : chapterMarker u = none)
    (hw : markerClose ∉ w) (hv : v = [] ∨ ∃ v0, v = markerOpen :: v0) :
    chapterMarker (u ++ (w ++ v)) = none := by
  cases hm : chapterMarker (u ++ (w ++ v)) with
  | none => rfl
  | some hit =>
    exfalso
    obtain ⟨ds, rest⟩ := hit
    obtain ⟨q, hshape, hopen, hclose, hloc⟩ := chapterMarker_shape _ ds rest hm
    have hsplit : u ++ (w ++ v) = (markerOpen :: (q ++ [markerClose])) ++ rest := by
      rw [hshape]
      simp [List.append_assoc]
    rcases List.append_eq_append_iff.mp hsplit with ⟨a, hp, hwv⟩ | ⟨c, huc, _⟩
    · -- the match reaches into the text that follows
      cases u with
      | nil => exact hu rfl
      | cons u0 us =>
        simp only [List.cons_append, List.cons.injEq] at hp
        obtain ⟨_, hq⟩ := hp
        -- `a` is a suffix of `q ++ [markerClose]`
        have hopenA : markerOpen ∉ a := by
          intro hmem
          have : markerOpen ∈ q ++ [markerClose] := by
            rw [hq]
            exact List.mem_append_right _ hmem
          rcases List.mem_append.mp this with h1 | h1
          · exact hopen h1
          · exact absurd (List.mem_singleton.mp h1) (by decide)
        have h0 : u0 = markerOpen := by
          have := congrArg List.head? hshape
          simpa using this
        cases ha : a with
        | nil =>
          rw [ha, List.append_nil] at hq
          have hu' : chapterMarker (u0 :: us) = some (ds, []) := by
            rw [h0, ← hq]
            simpa using hloc []
          rw [h] at hu'
          cases hu'
        | cons a0 as =>
          have hne : a ≠ [] := by rw [ha]; simp
          have hsuf : a <:+ q ++ [markerClose] := ⟨us, hq.symm⟩
          have hl : a.getLast hne = markerClose := by
            have := hsuf.getLast hne
            simpa using this
          have hcloseA : markerClose ∈ a := by
            rw [← hl]
            exact List.getLast_mem hne
          rcases List.append_eq_append_iff.mp hwv with ⟨x, hax, hvx⟩ | ⟨y, hway, _⟩
          · -- `a` covers `w` and reaches into `v`
            cases hx : x with
            | nil =>
              rw [hx, List.append_nil] at hax
              exact hw (by rw [← hax]; exact hcloseA)
            | cons x0 xs =>
              rcases hv with hv0 | ⟨v0, hv0⟩
              · rw [hv0, hx] at hvx
                cases hvx
              · rw [hv0, hx] at hvx
                simp only [List.cons_append, List.cons.injEq] at hvx
                apply hopenA
                rw [hax, hx, ← hvx.1]
                simp
          · -- `a` lies inside `w`
            exact hw (by rw [hway]; exact List.mem_append_left _ hcloseA)
    · -- the match lies inside `u`
      have hmatch := hloc c
      have hu' : chapterMarker u = some (ds, c) := by
        rw [huc]
        simpa [List.append_assoc] using hmatch
      rw [h] at hu'
      cases hu'

/-- The scan for markers passes over the rest of the previous match. -/
theorem markerTextsFrom_skip (passed rest : Text) :
    markerTextsFrom passed.length (passed ++ rest) = markerTextsFrom 0 rest := by
  induction passed with
  | nil => rfl
  | cons a passed ih => rw [List.length_cons, List.cons_append, markerTextsFrom, ih]

/-- The scan for spans passes over the rest of the previous match. -/
theorem chapterSpansFrom_skip (passed rest : Text) :
    chapterSpansFrom passed.length (passed ++ rest) = chapterSpansFrom 0 rest := by
  induction passed with
  | nil => rfl
  | cons a passed ih => rw [List.length_cons, List.cons_append, chapterSpansFrom, ih]

/-- The scan for markers finds nothing in a stretch in which no marker
starts. -/
theorem markerTextsFrom_noMarker (inner rest : Text)
    (h : ∀ t, t <:+ inner → t ≠ [] → chapterMarker (t ++ rest) = none) :
    markerTextsFrom 0 (inner ++ rest) = markerTextsFrom 0 rest := by
  induction inner with
  | nil => rfl
  | cons a inner ih =>
    have hhere := h (a :: inner) (List.suffix_refl _) (by simp)
    rw [List.cons_append] at hhere ⊢
    rw [markerTextsFrom, hhere]
    exact ih (fun t ht hne => h t (ht.trans (List.suffix_cons a inner)) hne)

/-- The scan for spans finds nothing in a stretch in which no marker starts. -/
theorem chapterSpansFrom_noMarker (inner rest : Text)
    (h : ∀ t, t <:+ inner → t ≠ [] → chapterMarker (t ++ rest) = none) :
    chapterSpansFrom 0 (inner ++ rest) = chapterSpansFrom 0 rest := by
  induction inner with
  | nil => rfl
  | cons a inner ih =>
    have hhere := h (a :: inner) (List.suffix_refl _) (by simp)
    rw [List.cons_append] at hhere ⊢
    rw [chapterSpansFrom, hhere]
    exact ih (fun t ht hne => h t (ht.trans (List.suffix_cons a inner)) hne)

/-- The body of a span: the text splits into the body and a remainder, no
marker starts inside the body, and the remainder is empty or starts with a
marker. -/
theorem spanBody_spec (r : Text) :
    ∃ y, r = spanBody r ++ y ∧
      (∀ t, t <:+ spanBody r → t ≠ [] → chapterMarker (t ++ y) = none) ∧
      (y = [] ∨ ∃ hit, chapterMarker y = some hit) := by
  induction r with
  | nil => exact ⟨[], rfl, by simp [spanBody], Or.inl rfl⟩
  | cons c cs ih =>
    cases hm : chapterMarker (c :: cs) with
    | some hit =>
      refine ⟨c :: cs, by simp [spanBody, hm], ?_, Or.inr ⟨hit, hm⟩⟩
      intro t ht hne
      simp only [spanBody, hm, Option.isSome_some, if_true] at ht
      exact absurd (List.eq_nil_of_suffix_nil ht) hne
    | none =>
      obtain ⟨y, hy, hnone, hrest⟩ := ih
      have hbody : spanBody (c :: cs) = c :: spanBody cs := by
        simp [spanBody, hm]
      refine ⟨y, by rw [hbody, List.cons_append, ← hy], ?_, hrest⟩
      intro t ht hne
      rw [hbody] at ht
      rcases List.suffix_cons_iff.mp ht with h | h
      · rw [h, List.cons_append, ← hy]
        exact hm
      · exact hnone t h hne

/-- The scans at a marker: the text splits into the marker, the body of its
span and a remainder; the occurrence found is the marker, the span found is the
marker with the body, and both scans resume at the remainder. -/
theorem scans_at_marker (u ds rest : Text) (h : chapterMarker u = some (ds, rest)) :
    ∃ mk y, u = mk ++ (spanBody rest ++ y) ∧
      (∃ m0, mk = markerOpen :: m0) ∧ (∀ v, chapterMarker (mk ++ v) = some (ds, v)) ∧
      markerTextsFrom 0 u = mk :: markerTextsFrom 0 y ∧
      chapterSpansFrom 0 u = (mk ++ spanBody rest) :: chapterSpansFrom 0 y ∧
      (∀ t, t <:+ spanBody rest → t ≠ [] → chapterMarker (t ++ y) = none) ∧
      (y = [] ∨ ∃ hit, chapterMarker y = some hit) := by
  obtain ⟨q, hu, _, _, hloc⟩ := chapterMarker_shape u ds rest h
  obtain ⟨y, hy, hnone, hrest⟩ := spanBody_spec rest
  have hsplit : u = (markerOpen :: (q ++ [markerClose])) ++ rest := by
    rw [hu]
    simp [List.append_assoc]
  have hM : chapterMarker (markerOpen :: (q ++ markerClose :: rest)) = some (ds, rest) :=
    hloc rest
  have hwhole : markerOpen :: (q ++ markerClose :: rest)
      = (markerOpen :: (q ++ [markerClose])) ++ rest := by
    simp [List.append_assoc]
  have htail : q ++ markerClose :: rest = (q ++ [markerClose]) ++ rest := by
    simp [List.append_assoc]
  have hlen1 : (markerOpen :: (q ++ markerClose :: rest)).length - rest.length
      = (markerOpen :: (q ++ [markerClose])).length := by
    rw [hwhole, List.length_append, Nat.add_sub_cancel]
  have hlen2 : (q ++ markerClose :: rest).length - rest.length = (q ++ [markerClose]).length := by
    rw [htail, List.length_append, Nat.add_sub_cancel]
  have htake : (markerOpen :: (q ++ markerClose :: rest)).take
      ((markerOpen :: (q ++ markerClose :: rest)).length - rest.length)
      = markerOpen :: (q ++ [markerClose]) := by
    rw [hlen1, hwhole, List.take_left']
    rfl
  refine ⟨markerOpen :: (q ++ [markerClose]), y, ?_, ⟨_, rfl⟩, ?_, ?_, ?_, hnone, hrest⟩
  · rw [← hy]
    exact hsplit
  · intro v
    have := hloc v
    simpa [List.append_assoc] using this
  · rw [hu, markerTextsFrom, hM]
    dsimp only
    rw [htake, hlen2, htail, markerTextsFrom_skip]
    conv_lhs => rw [hy]
    rw [markerTextsFrom_noMarker _ _ hnone]
  · rw [hu, chapterSpansFrom, hM]
    dsimp only
    rw [htake]
    have hcs : q ++ markerClose :: rest = ((q ++ [markerClose]) ++ spanBody rest) ++ y := by
      rw [List.append_assoc (q ++ [markerClose]) (spanBody rest) y, ← hy]
      exact htail
    have hskip : (markerOpen :: (q ++ [markerClose]) ++ spanBody rest).length - 1
        = ((q ++ [markerClose]) ++ spanBody rest).length := by
      simp
    rw [hskip, hcs, chapterSpansFrom_skip]

/-- The marker pattern needs the opener as first character. -/
theorem chapterMarker_of_ne (c : Char) (r : Text) (h : c ≠ markerOpen) :
    chapterMarker (c :: r) = none := by
  simp [chapterMarker, h]

/-- The scan for markers at a text that starts with a marker. -/
theorem markerTextsFrom_at (m0 v ds : Text)
    (h : chapterMarker (markerOpen :: m0 ++ v) = some (ds, v)) :
    markerTextsFrom 0 (markerOpen :: m0 ++ v)
      = (markerOpen :: m0) :: markerTextsFrom 0 v := by
  rw [List.cons_append] at h ⊢
  rw [markerTextsFrom, h]
  dsimp only
  have h1 : (markerOpen :: (m0 ++ v)).length - v.length = (markerOpen :: m0).length := by
    rw [← List.cons_append, List.length_append, Nat.add_sub_cancel]
  have h2 : (m0 ++ v).length - v.length = m0.length := by
    rw [List.length_append, Nat.add_sub_cancel]
  rw [h1, h2, markerTextsFrom_skip, ← List.cons_append, List.take_left']
  rfl

/-- A joined list of texts starts with the first of them. -/
theorem joinWith_cons (sep x : Text) (xs : List Text) :
    ∃ z, joinWith sep (x :: xs) = x ++ z := by
  cases xs with
  | nil => exact ⟨[], by simp [joinWith]⟩
  | cons y ys => exact ⟨sep ++ joinWith sep (y :: ys), by simp [joinWith, List.append_assoc]⟩

/-- Splitting a text into spans and joining the spans with blank lines keeps
the marker occurrences; the spans and the occurrences correspond one to one,
every span starts with the marker opener, and the spans and occurrences behind
the first `j` are those of a text that is not longer. -/
theorem spans_headings :
    ∀ (n : Nat) (s : Text), s.length ≤ n →
      (chapterSpansFrom 0 s).length = (markerTextsFrom 0 s).length ∧
      (∀ sp ∈ chapterSpansFrom 0 s, ∃ r, sp = markerOpen :: r) ∧
      markerTextsFrom 0 (joinWith [lineFeed, lineFeed] (chapterSpansFrom 0 s))
        = markerTextsFrom 0 s ∧
      ∀ j, ∃ s', s'.length ≤ s.length ∧
        (chapterSpansFrom 0 s).drop j = chapterSpansFrom 0 s' ∧
        (markerTextsFrom 0 s).drop j = markerTextsFrom 0 s' := by
  intro n
  induction n with
  | zero =>
    intro s hs
    have h0 : s = [] := List.length_eq_zero.mp (Nat.le_zero.mp hs)
    subst h0
    refine ⟨rfl, by simp [chapterSpansFrom], rfl, fun j => ⟨[], le_refl _, by simp [chapterSpansFrom], by simp [markerTextsFrom]⟩⟩
  | succ n ih =>
    intro s hs
    cases s with
    | nil =>
      refine ⟨rfl, by simp [chapterSpansFrom], rfl, fun j => ⟨[], le_refl _, by simp [chapterSpansFrom], by simp [markerTextsFrom]⟩⟩
    | cons c cs =>
      have hcs : cs.length ≤ n := by
        simp only [List.length_cons] at hs
        omega
      cases hm : chapterMarker (c :: cs) with
      | none =>
        have e1 : chapterSpansFrom 0 (c :: cs) = chapterSpansFrom 0 cs := by
          rw [chapterSpansFrom, hm]
        have e2 : markerTextsFrom 0 (c :: cs) = markerTextsFrom 0 cs := by
          rw [markerTextsFrom, hm]
        obtain ⟨i1, i2, i3, i4⟩ := ih cs hcs
        rw [e1, e2]
        refine ⟨i1, i2, i3, ?_⟩
        intro j
        obtain ⟨s', h1, h2, h3⟩ := i4 j
        exact ⟨s', le_trans h1 (by simp), h2, h3⟩
      | some hit =>
        obtain ⟨ds, rest⟩ := hit
        obtain ⟨mk, y, hu, ⟨m0, hmk⟩, hloc, hheads, hspans, hnone, hy⟩ :=
          scans_at_marker (c :: cs) ds rest hm
        have hylen : y.length ≤ n := by
          have := congrArg List.length hu
          rw [hmk] at this
          simp only [List.length_cons, List.length_append] at this hs
          omega
        obtain ⟨i1, i2, i3, i4⟩ := ih y hylen
        rw [hheads, hspans]
        refine ⟨by simp [i1], ?_, ?_, ?_⟩
        · intro sp hsp
          rcases List.mem_cons.mp hsp with h | h
          · exact ⟨m0 ++ spanBody rest, by rw [h, hmk]; rfl⟩
          · exact i2 sp h
        · cases hsy : chapterSpansFrom 0 y with
          | nil =>
            have hheadsy : markerTextsFrom 0 y = [] := by
              apply List.length_eq_zero.mp
              rw [← i1, hsy]
              rfl
            have hy0 : y = [] := by
              rcases hy with h0 | ⟨hit, hhit⟩
              · exact h0
              · exfalso
                obtain ⟨ds', rest'⟩ := hit
                obtain ⟨_, _, _, _, _, _, hsp', _, _⟩ := scans_at_marker y ds' rest' hhit
                rw [hsy] at hsp'
                cases hsp'
            rw [hheadsy]
            have hjoin : joinWith [lineFeed, lineFeed] [mk ++ spanBody rest]
                = mk ++ spanBody rest := rfl
            rw [hjoin]
            have hwhole : c :: cs = mk ++ spanBody rest := by
              rw [hu, hy0, List.append_nil]
            rw [← hwhole, hheads, hheadsy]
          | cons sp1 more =>
            obtain ⟨r1, hsp1⟩ := i2 sp1 (by rw [hsy]; simp)
            obtain ⟨z, hz⟩ := joinWith_cons [lineFeed, lineFeed] sp1 more
            have hjoin : joinWith [lineFeed, lineFeed] ((mk ++ spanBody rest) :: sp1 :: more)
                = mk ++ (spanBody rest ++ ([lineFeed, lineFeed] ++
                    joinWith [lineFeed, lineFeed] (sp1 :: more))) := by
              simp [joinWith, List.append_assoc]
            have hstart : ∃ v0, joinWith [lineFeed, lineFeed] (sp1 :: more)
                = markerOpen :: v0 := ⟨r1 ++ z, by rw [hz, hsp1]; rfl⟩
            rw [hjoin]
            have hat := markerTextsFrom_at m0
              (spanBody rest ++ ([lineFeed, lineFeed] ++
                joinWith [lineFeed, lineFeed] (sp1 :: more))) ds
              (by rw [← hmk]; exact hloc _)
            rw [← hmk] at hat
            rw [hat]
            congr 1
            rw [markerTextsFrom_noMarker, markerTextsFrom_noMarker, ← hsy, i3]
            · intro t ht hne
              cases t with
              | nil => exact absurd rfl hne
              | cons t0 ts =>
                have hmem : t0 ∈ [lineFeed, lineFeed] := ht.subset (by simp)
                have ht0 : t0 = lineFeed := by
                  simpa using hmem
                rw [List.cons_append]
                exact chapterMarker_of_ne t0 _ (by rw [ht0]; decide)
            · intro t ht hne
              have htnone : chapterMarker t = none := by
                cases hmt : chapterMarker t with
                | none => rfl
                | some hit =>
                  have := chapterMarker_append t y hit.1 hit.2 hmt
                  rw [hnone t ht hne] at this
                  cases this
              exact chapterMarker_none_append t [lineFeed, lineFeed] _ hne htnone
                (by decide) (Or.inr hstart)
        · intro j
          cases j with
          | zero =>
            refine ⟨c :: cs, le_refl _, ?_, ?_⟩
            · rw [List.drop_zero, hspans]
            · rw [List.drop_zero, hheads]
          | succ j =>
            obtain ⟨s', h1, h2, h3⟩ := i4 j
            refine ⟨s', ?_, by simpa using h2, by simpa using h3⟩
            have := congrArg List.length hu
            simp only [List.length_cons, List.length_append] at this ⊢
            omega

/-- The scan for markers finds nothing in whitespace. -/
theorem markerTextsFrom_whitespace (tail : Text) (h : ∀ c ∈ tail, isWhitespace c = true) :
    ∀ k, markerTextsFrom k tail = [] := by
  induction tail with
  | nil => intro k; cases k <;> rfl
  | cons c tail ih =>
    intro k
    have hrec := ih (fun x hx => h x (List.mem_cons_of_mem _ hx))
    cases k with
    | zero =>
      have hc : c ≠ markerOpen := by
        intro hc
        have := h c (by simp)
        rw [hc] at this
        exact absurd this (by decide)
      rw [markerTextsFrom, chapterMarker_of_ne c tail hc]
      exact hrec 0
    | succ k =>
      rw [markerTextsFrom]
      exact hrec k

/-- Whitespace behind a text adds no marker occurrence and changes none. -/
theorem markerTextsFrom_append_whitespace (tail : Text)
    (h : ∀ c ∈ tail, isWhitespace c = true) :
    ∀ (front : Text) (k : Nat),
      markerTextsFrom k (front ++ tail) = markerTextsFrom k front := by
  have hclose : markerClose ∉ tail := by
    intro hm
    exact absurd (h _ hm) (by decide)
  intro front
  induction front with
  | nil =>
    intro k
    rw [List.nil_append, markerTextsFrom_whitespace tail h]
    cases k <;> rfl
  | cons c cs ih =>
    intro k
    cases k with
    | succ k =>
      rw [List.cons_append, markerTextsFrom, markerTextsFrom]
      exact ih k
    | zero =>
      cases hm : chapterMarker (c :: cs) with
      | none =>
        have hm2 : chapterMarker (c :: cs ++ tail) = none := by
          have := chapterMarker_none_append (c :: cs) tail [] (by simp) hm hclose (Or.inl rfl)
          simpa using this
        rw [List.cons_append] at hm2 ⊢
        rw [markerTextsFrom, markerTextsFrom, hm, hm2]
        exact ih 0
      | some hit =>
        obtain ⟨ds, r⟩ := hit
        have hm2 := chapterMarker_append (c :: cs) tail ds r hm
        obtain ⟨q, hshape, _, _, _⟩ := chapterMarker_shape (c :: cs) ds r hm
        have hrlen : r.length ≤ cs.length := by
          have := congrArg List.length hshape
          simp only [List.length_cons, List.length_append] at this
          omega
        rw [List.cons_append] at hm2 ⊢
        rw [markerTextsFrom, markerTextsFrom, hm, hm2]
        dsimp only
        have hl1 : (c :: (cs ++ tail)).length - (r ++ tail).length
            = (c :: cs).length - r.length := by
          simp only [List.length_cons, List.length_append]
          omega
        have hl2 : (cs ++ tail).length - (r ++ tail).length = cs.length - r.length := by
          simp only [List.length_append]
          omega
        rw [hl1, hl2, ih (cs.length - r.length), ← List.cons_append,
          List.take_append_of_le_length (Nat.sub_le _ _)]

/-- A text is what `rdropWhile` keeps followed by a tail whose elements all
pass the test. -/
theorem rdropWhile_split {α : Type} (p : α → Bool) (l : List α) :
    ∃ tail, l = l.rdropWhile p ++ tail ∧ ∀ x ∈ tail, p x = true := by
  refine ⟨(l.reverse.takeWhile p).reverse, ?_, ?_⟩
  · have := congrArg List.reverse (List.takeWhile_append_dropWhile p l.reverse)
    rw [List.reverse_append, List.reverse_reverse] at this
    exact this.symm
  · intro x hx
    exact List.mem_takeWhile_imp (List.mem_reverse.mp hx)

/-- Trimming a text that is empty or starts with the marker opener keeps its
marker occurrences. -/
theorem markerTextsFrom_trim (text : Text) (h : text = [] ∨ ∃ r, text = markerOpen :: r) :
    markerTextsFrom 0 (trim text) = markerTextsFrom 0 text := by
  have hdrop : text.dropWhile isWhitespace = text := by
    apply dropWhile_eq_self_of_head
    intro a r har
    rcases h with h0 | ⟨r0, h0⟩
    · rw [h0] at har
      cases har
    · rw [h0] at har
      simp only [List.cons.injEq] at har
      rw [← har.1]
      decide
  obtain ⟨tail, hsplit, htail⟩ := rdropWhile_split isWhitespace text
  unfold trim
  rw [hdrop]
  conv_rhs => rw [hsplit]
  rw [markerTextsFrom_append_whitespace tail htail]

/-- The window of `limitChapterBlueprint` in terms of the marker scan of the
code, for every blueprint text and every `limit ≥ 1`, with the text split at
every occurrence of the marker `第\s*\d+\s*章` (mentions inside field lines
included): if the number of spans is at most `limit`, the text is returned
unchanged; otherwise the result is the last `limit` spans joined with blank
lines and trimmed, and it holds exactly `limit` marker occurrences, which are
the last `limit` of the input in the same order. -/
theorem limitChapterBlueprint_window (blueprint : Text) (limit : Nat) (hlimit : 1 ≤ limit) :
    ((chapterSpans blueprint).length ≤ limit →
        limitChapterBlueprint blueprint limit = blueprint) ∧
      (limit < (chapterSpans blueprint).length →
        limitChapterBlueprint blueprint limit
          = trim (joinWith [lineFeed, lineFeed]
              ((chapterSpans blueprint).drop ((chapterSpans blueprint).length - limit))) ∧
        (markerOccurrences (limitChapterBlueprint blueprint limit)).length = limit ∧
        markerOccurrences (limitChapterBlueprint blueprint limit)
          = (markerOccurrences blueprint).drop ((markerOccurrences blueprint).length - limit)) := by
  constructor
  · intro hle
    unfold limitChapterBlueprint
    split
    · rename_i he
      exact (List.isEmpty_iff.mp he).symm
    · exact if_pos hle
  · intro hlt
    have hne : ¬ blueprint.isEmpty = true := by
      intro he
      rw [List.isEmpty_iff.mp he] at hlt
      exact absurd hlt (by simp [chapterSpans, chapterSpansFrom])
    have hresult : limitChapterBlueprint blueprint limit
        = trim (joinWith [lineFeed, lineFeed]
            ((chapterSpans blueprint).drop ((chapterSpans blueprint).length - limit))) := by
      have hlt0 : limit < (chapterSpansFrom 0 blueprint).length := hlt
      unfold limitChapterBlueprint chapterSpans
      rw [if_neg hne]
      dsimp only
      rw [if_neg (Nat.not_le.mpr hlt0)]
      have h0 : limit ≠ 0 := by omega
      simp only [sliceLast, h0, if_false]
    obtain ⟨hlen, _, _, hdropAll⟩ := spans_headings blueprint.length blueprint (le_refl _)
    obtain ⟨s', _, hsp, hhd⟩ := hdropAll ((chapterSpansFrom 0 blueprint).length - limit)
    obtain ⟨_, hstart, hjoin, _⟩ := spans_headings s'.length s' (le_refl _)
    have hshape : joinWith [lineFeed, lineFeed] (chapterSpansFrom 0 s') = [] ∨
        ∃ r, joinWith [lineFeed, lineFeed] (chapterSpansFrom 0 s') = markerOpen :: r := by
      cases hs : chapterSpansFrom 0 s' with
      | nil => exact Or.inl rfl
      | cons sp more =>
        obtain ⟨r, hr⟩ := hstart sp (by rw [hs]; simp)
        obtain ⟨z, hz⟩ := joinWith_cons [lineFeed, lineFeed] sp more
        exact Or.inr ⟨r ++ z, by rw [hz, hr]; rfl⟩
    have hheadings : markerOccurrences (limitChapterBlueprint blueprint limit)
        = (markerOccurrences blueprint).drop ((markerOccurrences blueprint).length - limit) := by
      rw [hresult]
      unfold markerOccurrences chapterSpans
      rw [hsp, markerTextsFrom_trim _ hshape, hjoin, ← hhd, hlen]
    refine ⟨hresult, ?_, hheadings⟩
    rw [hheadings, List.length_drop]
    have : (markerOccurrences blueprint).length = (chapterSpans blueprint).length := hlen.symm
    omega

/-- An instance of `limitChapterBlueprint_window`: a text with three chapter
headings and no other marker, limited to two, keeps the chapters 2 and 3. -/
theorem limitChapterBlueprint_window_witness :
    markerOccurrences "序\n第1章 - 开端\n第2章 - 转折\n第 3 章 - 终局\n".toList
        = ["第1章".toList, "第2章".toList, "第 3 章".toList] ∧
      limitChapterBlueprint "序\n第1章 - 开端\n第2章 - 转折\n第 3 章 - 终局\n".toList 2
        = "第2章 - 转折\n\n\n第 3 章 - 终局".toList ∧
      markerOccurrences
          (limitChapterBlueprint "序\n第1章 - 开端\n第2章 - 转折\n第 3 章 - 终局\n".toList 2)
        = ["第2章".toList, "第 3 章".toList] := by
  have h := (limitChapterBlueprint_window
    "序\n第1章 - 开端\n第2章 - 转折\n第 3 章 - 终局\n".toList 2 (by decide)).2 (by decide)
  exact ⟨by decide, by decide, h.2.2.trans (by decide)⟩

/-- C14 at the failing input: the text holds the headings of the chapters 1
and 2 only, and a field line of chapter 2 mentions `第1章`.  The split counts
the mention as the start of a third span, so with `limit = 2` the text is not
returned unchanged: chapter 1 is dropped and the field line of chapter 2 is
cut in two at the mention. -/
theorem limitChapterBlueprint_splits_at_mention :
    (parseChapterBlueprint "第1章 - 开端\n第2章 - 转折\n本章定位：承接第1章结尾\n".toList).map
        (fun e => e.number) = [1, 2] ∧
      chapterSpans "第1章 - 开端\n第2章 - 转折\n本章定位：承接第1章结尾\n".toList
        = ["第1章 - 开端\n".toList, "第2章 - 转折\n本章定位：承接".toList, "第1章结尾\n".toList] ∧
      limitChapterBlueprint "第1章 - 开端\n第2章 - 转折\n本章定位：承接第1章结尾\n".toList 2
        = "第2章 - 转折\n本章定位：承接\n\n第1章结尾".toList := by
  decide

end HuobaoNovel
